import Mathlib

/-!
Shallow embedding of the PyRogueCOD roguelike core (src/main.py), a Python 2
program built on libtcodpy.  Pure data and game-state mutations are translated
into explicit state passing; Python exceptions (IndexError on list access past
the end, ZeroDivisionError, AttributeError on a missing component) are
modelled with Option.  Python 2 integer division (the `/` used in
Rect.center) is floor division, which agrees with Int's `/` (ediv) for a
positive divisor.  `print` side effects are modelled as an event log.
-/

set_option maxHeartbeats 1000000

namespace PyRogue

/-! Module-level constants of src/main.py. -/

def MAP_WIDTH : Int := 80
def MAP_HEIGHT : Int := 45
def ROOM_MAX_SIZE : Int := 10
def ROOM_MIN_SIZE : Int := 6
def MAX_ROOMS : Nat := 30
def MAX_ROOM_MONSTERS : Int := 3

/-- Tile: a tile on the map and its properties. -/
structure Tile where
  explored : Bool
  blocked : Bool
  block_sight : Bool
deriving DecidableEq

/-- Tile.__init__(blocked, block_sight=None): explored starts False and
block_sight defaults to blocked when not given. -/
def Tile.make (blocked : Bool) (block_sight : Option Bool) : Tile :=
  { explored := false, blocked := blocked, block_sight := block_sight.getD blocked }

/-- The libtcod colors the program actually uses for objects. -/
inductive Color where
  | white
  | darkRed
  | desaturatedGreen
  | darkerGreen
deriving DecidableEq

/-- Fighter.death_function: which of the two death callbacks is registered
(player_death or monster_death); None models no callback. -/
inductive DeathKind where
  | player
  | monster
deriving DecidableEq

/-- The single AI component variant of the program. -/
inductive AI where
  | basicMonster
deriving DecidableEq

/-- Fighter: combat-type Object component. -/
structure Fighter where
  max_hp : Int
  hp : Int
  defense : Int
  power : Int
  death_function : Option DeathKind
deriving DecidableEq

/-- Fighter.__init__(hp, defense, power, death_function): max_hp and hp both
start at hp. -/
def Fighter.make (hp defense power : Int) (death_function : Option DeathKind) : Fighter :=
  { max_hp := hp, hp := hp, defense := defense, power := power,
    death_function := death_function }

/-- The hp-update part of Fighter.take_damage: `if damage > 0: self.hp -= damage`. -/
def Fighter.applyDamage (f : Fighter) (damage : Int) : Fighter :=
  if damage > 0 then { f with hp := f.hp - damage } else f

/-- Object: generic game object (player, monster, ...). -/
structure Obj where
  name : String
  blocks : Bool
  x : Int
  y : Int
  char : Char
  color : Color
  fighter : Option Fighter
  ai : Option AI
deriving DecidableEq

/-- The print side effects of attack / player_death / monster_death,
recorded most recent first. -/
inductive Msg where
  | attackHit (damage : Int)
  | attackNoEffect
  | playerDied
  | monsterDied (victim : String)
deriving DecidableEq

/-- Rect: a rectangle on the map used to characterize a room. -/
structure Rect where
  x1 : Int
  y1 : Int
  x2 : Int
  y2 : Int
deriving DecidableEq

/-- Rect.__init__(x, y, w, h). -/
def Rect.make (x y w h : Int) : Rect :=
  { x1 := x, y1 := y, x2 := x + w, y2 := y + h }

/-- Rect.center: `((x1 + x2) / 2, (y1 + y2) / 2)` with Python 2 floor
division on ints, which Int's `/` matches for the positive divisor 2. -/
def Rect.center (r : Rect) : Int × Int :=
  ((r.x1 + r.x2) / 2, (r.y1 + r.y2) / 2)

/-- Rect.intersect: inclusive-bound overlap test. -/
def Rect.intersect (r other : Rect) : Bool :=
  decide (r.x1 ≤ other.x2) && decide (r.x2 ≥ other.x1) &&
  decide (r.y1 ≤ other.y2) && decide (r.y2 ≥ other.y1)

/-- The map: a total assignment of tiles to integer coordinates.  All reads
and writes the generator makes are at in-range coordinates; the exact Python
list-indexing semantics (negative-index wraparound, IndexError past the end)
is modelled separately by pyIdx below for the bounds claim. -/
def Grid : Type := Int → Int → Tile

/-- A random source: a stream of arbitrary raw draws.  Quantifying over all
streams quantifies over all possible sequences of libtcod random results. -/
def RNG : Type := Nat → Nat

def RNG.tail (g : RNG) : RNG := fun n => g (n + 1)

/-- Models libtcod.random_get_int(0, lo, hi): consumes one raw draw and maps
it into [lo, hi] (for lo ≤ hi every value in the range is realizable). -/
def randomGetInt (lo hi : Int) (g : RNG) : Int × RNG :=
  (lo + (g 0 : Int) % (hi + 1 - lo), RNG.tail g)

/-- The map mutation shared by create_room and the tunnel carvers:
`blocked = False; block_sight = False`. -/
def carveTile (t : Tile) : Tile := { t with blocked := false, block_sight := false }

/-- create_room: carve every tile with x in range(x1+1, x2), y in range(y1+1, y2). -/
def createRoom (g : Grid) (room : Rect) : Grid := fun x y =>
  if room.x1 + 1 ≤ x ∧ x < room.x2 ∧ room.y1 + 1 ≤ y ∧ y < room.y2 then
    carveTile (g x y)
  else g x y

/-- create_h_tunnel: carve every tile with x in range(min(x1,x2), max(x1,x2)+1) at row y0. -/
def createHTunnel (g : Grid) (x1 x2 y0 : Int) : Grid := fun x y =>
  if min x1 x2 ≤ x ∧ x ≤ max x1 x2 ∧ y = y0 then carveTile (g x y) else g x y

/-- create_v_tunnel: carve every tile with y in range(min(y1,y2), max(y1,y2)+1) at column x0. -/
def createVTunnel (g : Grid) (y1 y2 x0 : Int) : Grid := fun x y =>
  if min y1 y2 ≤ y ∧ y ≤ max y1 y2 ∧ x = x0 then carveTile (g x y) else g x y

/-- is_blocked(x, y): the tile is blocked, or some blocking object stands there. -/
def isBlockedOn (g : Grid) (objs : List Obj) (x y : Int) : Bool :=
  (g x y).blocked || objs.any (fun o => o.blocks && o.x == x && o.y == y)

/-- The orc template of place_objects (hp=10, defense=0, power=3). -/
def orcAt (x y : Int) : Obj :=
  { name := ("orc"), blocks := true, x := x, y := y, char := ('o'),
    color := Color.desaturatedGreen,
    fighter := some (Fighter.make 10 0 3 (some DeathKind.monster)),
    ai := some AI.basicMonster }

/-- The troll template of place_objects (hp=16, defense=1, power=4). -/
def trollAt (x y : Int) : Obj :=
  { name := ("troll"), blocks := true, x := x, y := y, char := ('T'),
    color := Color.darkerGreen,
    fighter := some (Fighter.make 16 1 4 (some DeathKind.monster)),
    ai := some AI.basicMonster }

/-- The per-monster loop body of place_objects: draw a position in the room's
inclusive bounds, skip it if blocked, otherwise draw the 80/20 orc/troll roll
and append the monster. -/
def placeObjectsGo (g : Grid) (room : Rect) : Nat → List Obj → RNG → List Obj × RNG
  | 0, objs, r => (objs, r)
  | Nat.succ n, objs, r =>
    let (x, r1) := randomGetInt room.x1 room.x2 r
    let (y, r2) := randomGetInt room.y1 room.y2 r1
    if isBlockedOn g objs x y then placeObjectsGo g room n objs r2
    else
      let (roll, r3) := randomGetInt 0 100 r2
      let monster := if roll < 80 then orcAt x y else trollAt x y
      placeObjectsGo g room n (objs ++ [monster]) r3

/-- place_objects(room): draw a monster count in [0, MAX_ROOM_MONSTERS] and
run the placement loop that many times. -/
def placeObjects (g : Grid) (objs : List Obj) (room : Rect) (rng : RNG) : List Obj × RNG :=
  let (num, r1) := randomGetInt 0 MAX_ROOM_MONSTERS rng
  placeObjectsGo g room num.toNat objs r1

/-- The generator state threaded through make_map: the global map, the list
of accepted rooms, the global objects list (player at index 0), and the
random source. -/
structure GenState where
  grid : Grid
  rooms : List Rect
  objects : List Obj
  rng : RNG

/-- One iteration of make_map's `for r in range(MAX_ROOMS)` loop: draw a
room, reject it if it intersects any accepted room, otherwise carve it,
populate it, and either place the player (first room) or carve an L-shaped
tunnel from the previous room's center, H-then-V or V-then-H on a coin. -/
def attempt (s : GenState) : GenState :=
  let d1 := randomGetInt ROOM_MIN_SIZE ROOM_MAX_SIZE s.rng
  let d2 := randomGetInt ROOM_MIN_SIZE ROOM_MAX_SIZE d1.2
  let d3 := randomGetInt 0 (MAP_WIDTH - d1.1 - 1) d2.2
  let d4 := randomGetInt 0 (MAP_HEIGHT - d2.1 - 1) d3.2
  let newRoom := Rect.make d3.1 d4.1 d1.1 d2.1
  if s.rooms.any (fun other => newRoom.intersect other) then
    { s with rng := d4.2 }
  else
    let grid1 := createRoom s.grid newRoom
    let po := placeObjects grid1 s.objects newRoom d4.2
    let c := newRoom.center
    match s.rooms.getLast? with
    | none =>
      { grid := grid1, rooms := s.rooms ++ [newRoom],
        objects := match po.1 with
                   | [] => []
                   | p :: rest => { p with x := c.1, y := c.2 } :: rest,
        rng := po.2 }
    | some prevRoom =>
      let pc := prevRoom.center
      let d6 := randomGetInt 0 1 po.2
      let grid2 :=
        if d6.1 = 1 then
          createVTunnel (createHTunnel grid1 pc.1 c.1 pc.2) pc.2 c.2 c.1
        else
          createHTunnel (createVTunnel grid1 pc.2 c.2 pc.1) pc.1 c.1 c.2
      { grid := grid2, rooms := s.rooms ++ [newRoom], objects := po.1, rng := d6.2 }

/-- The initial map of make_map: `[[Tile(True) ...] ...]`, every tile blocked
and sight-blocking. -/
def initialGrid : Grid := fun _ _ => { explored := false, blocked := true, block_sight := true }

/-- make_map(): MAX_ROOMS placement attempts starting from the all-blocked
map, empty room list, and the initial objects list (the player). -/
def makeMap (objs0 : List Obj) (rng : RNG) : GenState :=
  (List.range MAX_ROOMS).foldl (fun s _ => attempt s)
    { grid := initialGrid, rooms := [], objects := objs0, rng := rng }

/-! Reachability through carved tiles, for the connectivity claim. -/

/-- 4-neighbourhood adjacency of tile coordinates. -/
def Adj (p q : Int × Int) : Prop :=
  (q.1 = p.1 + 1 ∧ q.2 = p.2) ∨ (q.1 = p.1 - 1 ∧ q.2 = p.2) ∨
  (q.2 = p.2 + 1 ∧ q.1 = p.1) ∨ (q.2 = p.2 - 1 ∧ q.1 = p.1)

/-- Reachability: a path of adjacent carved (blocked = false) tiles. -/
inductive Reach (g : Grid) : Int × Int → Int × Int → Prop where
  | refl (p : Int × Int) (h : (g p.1 p.2).blocked = false) : Reach g p p
  | tail {p q r : Int × Int} (hpq : Reach g p q) (ha : Adj q r)
      (hr : (g r.1 r.2).blocked = false) : Reach g p r

/-- One grid only carves further than another: every carved tile stays carved. -/
def CarveMono (g g' : Grid) : Prop :=
  ∀ x y, (g x y).blocked = false → (g' x y).blocked = false

/-- Every accepted room's center is reachable from the first accepted
room's center through carved tiles. -/
def roomsConnected (g : Grid) (rooms : List Rect) : Prop :=
  ∀ r0, rooms.head? = some r0 → ∀ r ∈ rooms, Reach g r0.center r.center

/-! Python list-indexing semantics, for the grid-bounds claim.  `map[x][y]`
on Python lists: an index i with 0 ≤ i < len reads normally, an index with
-len ≤ i < 0 silently wraps to len + i, and anything else raises IndexError
(modelled as none). -/

def pyIdx {α : Type} (l : List α) (i : Int) : Option α :=
  if 0 ≤ i then l.get? i.toNat
  else if 0 ≤ i + l.length then l.get? (i + l.length).toNat
  else none

/-- A tile read `map[x][y]` under Python list semantics. -/
def pyGet2 (m : List (List Tile)) (x y : Int) : Option Tile :=
  (pyIdx m x).bind (fun col => pyIdx col y)

/-- The `blocked` read of is_blocked under Python list semantics. -/
def pyBlockedRead (m : List (List Tile)) (x y : Int) : Option Bool :=
  (pyGet2 m x y).map Tile.blocked

/-- The initial map as the source literally builds it:
`[[Tile(True) for y in range(MAP_HEIGHT)] for x in range(MAP_WIDTH)]`. -/
def initMapPy : List (List Tile) :=
  (List.range MAP_WIDTH.toNat).map (fun _ =>
    (List.range MAP_HEIGHT.toNat).map (fun _ => Tile.make true none))

/-! The turn-loop session state and its operations. -/

/-- game_state: 'playing' or 'dead'. -/
inductive GameStatus where
  | playing
  | dead
deriving DecidableEq

/-- The global session state of the main loop: the map, the objects list
(player at index 0, as initialized by `objects = [player]`), game_state,
the fov_recompute flag, the current libtcod fov_map contents (abstract:
computed externally by libtcod), and the print log. -/
structure GState where
  grid : Grid
  objects : List Obj
  game_state : GameStatus
  fov_recompute : Bool
  fov : Int → Int → Bool
  log : List Msg

/-- is_blocked(x, y) against the session state. -/
def isBlockedSys (st : GState) (x y : Int) : Bool :=
  isBlockedOn st.grid st.objects x y

def setObjAt (st : GState) (i : Nat) (o : Obj) : GState :=
  { st with objects := st.objects.set i o }

/-- The death functions.  player_death: print, set game_state to 'dead',
turn the player into a corpse glyph.  monster_death: print, corpse glyph,
stop blocking, remove the Fighter and AI components, rename to remains. -/
def applyDeath (st : GState) (i : Nat) (k : DeathKind) : GState :=
  match st.objects[i]? with
  | none => st
  | some o =>
    match k with
    | DeathKind.player =>
      { st with game_state := GameStatus.dead,
                log := Msg.playerDied :: st.log,
                objects := st.objects.set i
                  { o with char := ('%'), color := Color.darkRed } }
    | DeathKind.monster =>
      { st with log := Msg.monsterDied o.name :: st.log,
                objects := st.objects.set i
                  { o with char := ('%'), color := Color.darkRed, blocks := false,
                           fighter := none, ai := none,
                           name := ("remains of " ++ o.name) } }

/-- Fighter.take_damage on the object at index i: apply the damage to the
object's fighter; if the resulting hp is ≤ 0 and a death function is
registered, invoke it.  none models calling it on an object without a
Fighter component (AttributeError in Python). -/
def takeDamageObj (st : GState) (i : Nat) (damage : Int) : Option GState :=
  match st.objects[i]? with
  | none => none
  | some o =>
    match o.fighter with
    | none => none
    | some f =>
      let f' := f.applyDamage damage
      let st1 := setObjAt st i { o with fighter := some f' }
      if f'.hp ≤ 0 then
        match f'.death_function with
        | some k => some (applyDeath st1 i k)
        | none => some st1
      else some st1

/-- Fighter.attack(target): damage = power - target.fighter.defense; the
truthiness test `if damage:` prints a hit message and applies the damage for
any nonzero damage (negative included), and prints a no-effect message only
for damage == 0. -/
def attackObj (st : GState) (attacker target : Nat) : Option GState :=
  match st.objects[attacker]? with
  | none => none
  | some a =>
    match a.fighter with
    | none => none
    | some af =>
      match st.objects[target]? with
      | none => none
      | some t =>
        match t.fighter with
        | none => none
        | some tf =>
          let damage := af.power - tf.defense
          if damage ≠ 0 then
            takeDamageObj { st with log := Msg.attackHit damage :: st.log } target damage
          else
            some { st with log := Msg.attackNoEffect :: st.log }

/-- Object.move(dx, dy): move by the given amount unless the target cell is
blocked (silently doing nothing when it is). -/
def moveObj (st : GState) (i : Nat) (dx dy : Int) : GState :=
  match st.objects[i]? with
  | none => st
  | some o =>
    if isBlockedSys st (o.x + dx) (o.y + dy) then st
    else setObjAt st i { o with x := o.x + dx, y := o.y + dy }

/-- player_move_or_attack(dx, dy): look for the first object with a Fighter
at the target cell; attack it if found, otherwise move and unconditionally
set fov_recompute. -/
def playerMoveOrAttack (st : GState) (dx dy : Int) : Option GState :=
  match st.objects[0]? with
  | none => none
  | some p =>
    let x := p.x + dx
    let y := p.y + dy
    match st.objects.findIdx? (fun o => o.fighter.isSome && o.x == x && o.y == y) with
    | some t => attackObj st 0 t
    | none => some { moveObj st 0 dx dy with fov_recompute := true }

/-- Object.distance_to compares via sqrt(dx^2 + dy^2); the squared distance
is kept exact so that `distance_to >= 2` is `distSq >= 4`. -/
def distSq (a b : Obj) : Int := (b.x - a.x) ^ 2 + (b.y - a.y) ^ 2

/-- The exact integer value of Python's `int(round(d / math.sqrt(s)))` for
s = dx^2 + dy^2 > 0 with d one of dx, dy: the quotient lies in [-1, 1], and
it rounds away from 0 exactly when s ≤ 4*d^2 (ties d/sqrt(s) = ±1/2 would
need dy^2 = 3*dx^2 and are impossible for nonzero integers, so the
half-rounding direction never matters). -/
def roundDiv (d s : Int) : Int :=
  if 0 ≤ d then (if s ≤ 4 * d ^ 2 then 1 else 0)
  else (if s ≤ 4 * d ^ 2 then -1 else 0)

/-- Object.move_towards(target_x, target_y): normalize the vector to the
target to a unit step and move by it; none models the ZeroDivisionError
Python would raise when the distance is 0. -/
def moveTowards (st : GState) (i : Nat) (tx ty : Int) : Option GState :=
  match st.objects[i]? with
  | none => none
  | some o =>
    let dx := tx - o.x
    let dy := ty - o.y
    let s := dx ^ 2 + dy ^ 2
    if s = 0 then none
    else some (moveObj st i (roundDiv dx s) (roundDiv dy s))

/-- BasicMonster.take_turn for the monster at index i: only act when the
player's fov covers the monster; chase when the distance to the player is at
least 2, otherwise attack while the player's fighter still has positive hp. -/
def takeTurn (st : GState) (i : Nat) : Option GState :=
  match st.objects[i]? with
  | none => none
  | some monster =>
    if st.fov monster.x monster.y then
      match st.objects[0]? with
      | none => none
      | some player =>
        if distSq monster player ≥ 4 then
          moveTowards st i player.x player.y
        else
          match player.fighter with
          | none => none
          | some pf =>
            if pf.hp > 0 then attackObj st i 0
            else some st
    else some st

/-- One entry of the main loop's `for obj in objects: if obj.ai: take_turn()`. -/
def aiStep (st : GState) (i : Nat) : Option GState :=
  match st.objects[i]? with
  | none => some st
  | some o =>
    match o.ai with
    | some _ => takeTurn st i
    | none => some st

/-- The whole AI pass over the objects list. -/
def aiPass (st : GState) : Option GState :=
  (List.range st.objects.length).foldlM aiStep st

/-- The key inputs the main loop distinguishes. -/
inductive Key where
  | up
  | down
  | left
  | right
  | escape
  | other
deriving DecidableEq

/-- The value handle_keys returns: 'exit', 'didnt-take-turn', or Python None
(falling off the end after taking, or being denied, a turn). -/
inductive PlayerAction where
  | exit
  | didntTakeTurn
  | took
deriving DecidableEq

/-- handle_keys(): Escape exits; movement keys act only while game_state is
'playing' (otherwise the function returns None); an unrecognized key while
playing returns 'didnt-take-turn'. -/
def handleKeys (st : GState) (k : Key) : Option (GState × PlayerAction) :=
  match k with
  | Key.escape => some (st, PlayerAction.exit)
  | _ =>
    if st.game_state = GameStatus.playing then
      match k with
      | Key.up => (playerMoveOrAttack st 0 (-1)).map (fun s => (s, PlayerAction.took))
      | Key.down => (playerMoveOrAttack st 0 1).map (fun s => (s, PlayerAction.took))
      | Key.left => (playerMoveOrAttack st (-1) 0).map (fun s => (s, PlayerAction.took))
      | Key.right => (playerMoveOrAttack st 1 0).map (fun s => (s, PlayerAction.took))
      | _ => some (st, PlayerAction.didntTakeTurn)
    else some (st, PlayerAction.took)

/-- One iteration of the main loop's simulation part: handle the key, break
on exit, and run the AI pass only while playing and only when the player
action consumed a turn. -/
def step (st : GState) (k : Key) : Option (GState × PlayerAction) :=
  match handleKeys st k with
  | none => none
  | some (st1, act) =>
    if act = PlayerAction.exit then some (st1, act)
    else if st1.game_state = GameStatus.playing ∧ act ≠ PlayerAction.didntTakeTurn then
      match aiPass st1 with
      | none => none
      | some st2 => some (st2, act)
    else some (st1, act)

/-- The position view of the object at index j. -/
def posAt (st : GState) (j : Nat) : Option (Int × Int) :=
  (st.objects[j]?).map (fun o => (o.x, o.y))

/-- The fighter component of the object at index i. -/
def fighterAt (st : GState) (i : Nat) : Option Fighter :=
  (st.objects[i]?).bind Obj.fighter

/-- Between two states, every surviving fighter already existed, its hp has
not increased, and its max_hp is unchanged. -/
def FighterLe (s t : GState) : Prop :=
  ∀ i f', fighterAt t i = some f' →
    ∃ f, fighterAt s i = some f ∧ f'.hp ≤ f.hp ∧ f'.max_hp = f.max_hp

/-- The death callbacks as the program wires them: the player (index 0) has
player_death, every other fighter has monster_death. -/
def WiredOK (st : GState) : Prop :=
  (∃ pf, fighterAt st 0 = some pf ∧ pf.death_function = some DeathKind.player) ∧
  (∀ i f, i ≠ 0 → fighterAt st i = some f →
    f.death_function = some DeathKind.monster)

/-- The lifecycle invariant: callbacks wired as above, and the state is
'dead' exactly when the player's fighter has hp ≤ 0. -/
def LifeInv (st : GState) : Prop :=
  WiredOK st ∧
  (st.game_state = GameStatus.dead ↔ ∃ pf, fighterAt st 0 = some pf ∧ pf.hp ≤ 0)

/-! Concrete fixtures used by counterexamples and witnesses. -/

/-- A grid with every tile carved. -/
def gridFree : Grid := fun _ _ => { explored := false, blocked := false, block_sight := false }

/-- A grid with only (1, 1) carved. -/
def gridWall : Grid := fun x y =>
  if x = 1 ∧ y = 1 then { explored := false, blocked := false, block_sight := false }
  else { explored := false, blocked := true, block_sight := true }

/-- An attacker with power 1 (and no death callback, irrelevant here). -/
def atkW : Obj :=
  { name := ("a"), blocks := true, x := 0, y := 0, char := ('o'),
    color := Color.white, fighter := some (Fighter.make 5 0 1 none), ai := none }

/-- A defender with defense 2 and hp 10. -/
def defW : Obj :=
  { name := ("d"), blocks := true, x := 1, y := 0, char := ('o'),
    color := Color.white, fighter := some (Fighter.make 10 2 0 none), ai := none }

/-- A session in which atkW (power 1) faces defW (defense 2). -/
def stC1 : GState :=
  { grid := gridFree, objects := [atkW, defW],
    game_state := GameStatus.playing, fov_recompute := false,
    fov := fun _ _ => true, log := [] }

/-- The player as the source constructs it (hp=30, defense=2, power=5,
death_function=player_death), at some position. -/
def playerAt (x y : Int) : Obj :=
  { name := ("player"), blocks := true, x := x, y := y, char := ('@'),
    color := Color.white, fighter := some (Fighter.make 30 2 5 (some DeathKind.player)),
    ai := none }

/-- A session with the player at (1,1) walled in on all sides. -/
def stC7 : GState :=
  { grid := gridWall, objects := [playerAt 1 1],
    game_state := GameStatus.playing, fov_recompute := false,
    fov := fun _ _ => true, log := [] }

/-- The player after its death fired: hp 0, corpse glyph, one death print. -/
def deadPlayer : Obj :=
  { name := ("player"), blocks := true, x := 1, y := 1, char := ('%'),
    color := Color.darkRed,
    fighter := some ((Fighter.make 30 2 5 (some DeathKind.player)).applyDamage 30),
    ai := none }

/-- A session right after the player's death handler ran. -/
def stC2 : GState :=
  { grid := gridWall, objects := [deadPlayer],
    game_state := GameStatus.dead, fov_recompute := false,
    fov := fun _ _ => true, log := [Msg.playerDied] }

/-- A session where the dead player shares the map with a live monster. -/
def stC2b : GState :=
  { grid := gridFree, objects := [deadPlayer, orcAt 1 2],
    game_state := GameStatus.dead, fov_recompute := false,
    fov := fun _ _ => true, log := [Msg.playerDied] }

/-- A session with the player at (0,2) and a monster at (0,0), distance 2. -/
def stC9 : GState :=
  { grid := gridFree, objects := [playerAt 0 2, orcAt 0 0],
    game_state := GameStatus.playing, fov_recompute := false,
    fov := fun _ _ => true, log := [] }

/-- The all-zeros random stream. -/
def rngZero : RNG := fun _ => 0

/-! General-purpose helper lemmas about the operations. -/

/-- A findIdx? hit names an element satisfying the predicate. -/
theorem list_findIdx?_spec {α : Type} (p : α → Bool) (l : List α) (t : Nat)
    (h : l.findIdx? p = some t) : ∃ a, l[t]? = some a ∧ p a = true := by
  obtain ⟨hlt, hidx⟩ := List.findIdx?_eq_some_iff_findIdx_eq.mp h
  subst hidx
  exact ⟨l[List.findIdx p l], (List.getElem?_eq_some).mpr ⟨hlt, rfl⟩,
    @List.findIdx_getElem _ p l hlt⟩

/-- Replacing an element with one at the same position leaves every
position view unchanged. -/
theorem set_pos_eq (l : List Obj) (i : Nat) (o o' : Obj)
    (ho : l[i]? = some o) (hx : o'.x = o.x) (hy : o'.y = o.y) (j : Nat) :
    ((l.set i o')[j]?).map (fun a => (a.x, a.y)) = (l[j]?).map (fun a => (a.x, a.y)) := by
  have hlen : i < l.length := (List.getElem?_eq_some.mp ho).1
  by_cases hij : i = j
  · subst hij
    rw [List.getElem?_set_self hlen, ho]
    simp [hx, hy]
  · rw [List.getElem?_set_ne hij]

/-- Replacing an element with one carrying the same fighter leaves every
fighter view unchanged. -/
theorem set_fighter_eq (l : List Obj) (i : Nat) (o o' : Obj)
    (ho : l[i]? = some o) (hf : o'.fighter = o.fighter) (j : Nat) :
    ((l.set i o')[j]?).bind Obj.fighter = (l[j]?).bind Obj.fighter := by
  have hlen : i < l.length := (List.getElem?_eq_some.mp ho).1
  by_cases hij : i = j
  · subst hij
    rw [List.getElem?_set_self hlen, ho]
    simp [hf]
  · rw [List.getElem?_set_ne hij]

/-- Object.move only relocates the object: log, game_state, flags, map, fov
data, list length, and every fighter view are untouched. -/
theorem moveObj_frame (st : GState) (i : Nat) (dx dy : Int) :
    (moveObj st i dx dy).log = st.log ∧
    (moveObj st i dx dy).game_state = st.game_state ∧
    (moveObj st i dx dy).fov_recompute = st.fov_recompute ∧
    (moveObj st i dx dy).grid = st.grid ∧
    (moveObj st i dx dy).fov = st.fov ∧
    (moveObj st i dx dy).objects.length = st.objects.length ∧
    ∀ j, fighterAt (moveObj st i dx dy) j = fighterAt st j := by
  cases ho : st.objects[i]? with
  | none =>
    simp [moveObj, ho, fighterAt]
  | some o =>
    by_cases hb : isBlockedSys st (o.x + dx) (o.y + dy)
    · simp [moveObj, ho, hb, fighterAt]
    · refine ⟨by simp [moveObj, ho, hb, setObjAt], by simp [moveObj, ho, hb, setObjAt],
        by simp [moveObj, ho, hb, setObjAt], by simp [moveObj, ho, hb, setObjAt],
        by simp [moveObj, ho, hb, setObjAt], by simp [moveObj, ho, hb, setObjAt],
        fun j => ?_⟩
      simp only [moveObj, ho, hb, if_neg, Bool.false_eq_true, setObjAt, fighterAt]
      exact set_fighter_eq st.objects i o
        { o with x := o.x + dx, y := o.y + dy } ho rfl j

/-- applyDeath never touches the grid, the fov data, the recompute flag, the
list length, or any object's position. -/
theorem applyDeath_frame (st : GState) (i : Nat) (k : DeathKind) :
    (applyDeath st i k).fov_recompute = st.fov_recompute ∧
    (applyDeath st i k).grid = st.grid ∧
    (applyDeath st i k).fov = st.fov ∧
    (applyDeath st i k).objects.length = st.objects.length ∧
    ∀ j, posAt (applyDeath st i k) j = posAt st j := by
  cases ho : st.objects[i]? with
  | none =>
    simp [applyDeath, ho, posAt]
  | some o =>
    cases k with
    | player =>
      refine ⟨by simp [applyDeath, ho], by simp [applyDeath, ho], by simp [applyDeath, ho],
        by simp [applyDeath, ho], fun j => ?_⟩
      simp only [applyDeath, ho, posAt]
      exact set_pos_eq st.objects i o
        { o with char := ('%'), color := Color.darkRed } ho rfl rfl j
    | monster =>
      refine ⟨by simp [applyDeath, ho], by simp [applyDeath, ho], by simp [applyDeath, ho],
        by simp [applyDeath, ho], fun j => ?_⟩
      simp only [applyDeath, ho, posAt]
      exact set_pos_eq st.objects i o
        { o with char := ('%'), color := Color.darkRed, blocks := false,
                 fighter := none, ai := none, name := ("remains of " ++ o.name) }
        ho rfl rfl j

/-- take_damage never touches the grid, the fov data, the recompute flag,
the list length, or any object's position. -/
theorem takeDamageObj_frame (st : GState) (i : Nat) (d : Int) (st' : GState)
    (h : takeDamageObj st i d = some st') :
    st'.fov_recompute = st.fov_recompute ∧
    st'.grid = st.grid ∧
    st'.fov = st.fov ∧
    st'.objects.length = st.objects.length ∧
    ∀ j, posAt st' j = posAt st j := by
  cases ho : st.objects[i]? with
  | none =>
    simp only [takeDamageObj, ho] at h
    exact Option.noConfusion h
  | some o =>
    cases hf : o.fighter with
    | none =>
      simp only [takeDamageObj, ho, hf] at h
      exact Option.noConfusion h
    | some f =>
      simp only [takeDamageObj, ho, hf] at h
      set st1 := setObjAt st i { o with fighter := some (f.applyDamage d) } with hst1
      have hfr1 : st1.fov_recompute = st.fov_recompute ∧ st1.grid = st.grid ∧
          st1.fov = st.fov ∧ st1.objects.length = st.objects.length ∧
          ∀ j, posAt st1 j = posAt st j := by
        refine ⟨rfl, rfl, rfl, by simp [hst1, setObjAt], fun j => ?_⟩
        simp only [hst1, setObjAt, posAt]
        exact set_pos_eq st.objects i o
          { o with fighter := some (f.applyDamage d) } ho rfl rfl j
      by_cases hdead : (f.applyDamage d).hp ≤ 0
      · rw [if_pos hdead] at h
        cases hdf : (f.applyDamage d).death_function with
        | none =>
          simp only [hdf, Option.some.injEq] at h
          subst h
          exact hfr1
        | some k =>
          simp only [hdf, Option.some.injEq] at h
          subst h
          have hfr2 := applyDeath_frame st1 i k
          exact ⟨hfr2.1.trans hfr1.1, hfr2.2.1.trans hfr1.2.1, hfr2.2.2.1.trans hfr1.2.2.1,
            hfr2.2.2.2.1.trans hfr1.2.2.2.1,
            fun j => (hfr2.2.2.2.2 j).trans (hfr1.2.2.2.2 j)⟩
      · rw [if_neg hdead] at h
        simp only [Option.some.injEq] at h
        subst h
        exact hfr1

/-- attack succeeds whenever both parties exist and have Fighter components. -/
theorem attackObj_some (st : GState) (a t : Nat) (ao tg : Obj) (af tf : Fighter)
    (ha : st.objects[a]? = some ao) (haf : ao.fighter = some af)
    (ht : st.objects[t]? = some tg) (htf : tg.fighter = some tf) :
    ∃ st', attackObj st a t = some st' := by
  simp only [attackObj, ha, haf, ht, htf]
  by_cases hd : af.power - tf.defense = 0
  · rw [if_neg (by omega)]
    exact ⟨_, rfl⟩
  · rw [if_pos hd]
    simp only [takeDamageObj, ht, htf]
    by_cases hdead : (tf.applyDamage (af.power - tf.defense)).hp ≤ 0
    · rw [if_pos hdead]
      cases (tf.applyDamage (af.power - tf.defense)).death_function with
      | none => exact ⟨_, rfl⟩
      | some k => exact ⟨_, rfl⟩
    · rw [if_neg hdead]
      exact ⟨_, rfl⟩

/-- attack never touches the grid, the fov data, the recompute flag, the
list length, or any object's position. -/
theorem attackObj_frame (st : GState) (a t : Nat) (st' : GState)
    (h : attackObj st a t = some st') :
    st'.fov_recompute = st.fov_recompute ∧
    st'.grid = st.grid ∧
    st'.fov = st.fov ∧
    st'.objects.length = st.objects.length ∧
    ∀ j, posAt st' j = posAt st j := by
  cases ha : st.objects[a]? with
  | none =>
    simp only [attackObj, ha] at h
    exact Option.noConfusion h
  | some ao =>
    cases haf : ao.fighter with
    | none =>
      simp only [attackObj, ha, haf] at h
      exact Option.noConfusion h
    | some af =>
      cases ht : st.objects[t]? with
      | none =>
        simp only [attackObj, ha, haf, ht] at h
        exact Option.noConfusion h
      | some tg =>
        cases htf : tg.fighter with
        | none =>
          simp only [attackObj, ha, haf, ht, htf] at h
          exact Option.noConfusion h
        | some tf =>
          simp only [attackObj, ha, haf, ht, htf] at h
          by_cases hd : af.power - tf.defense ≠ 0
          · rw [if_pos hd] at h
            have := takeDamageObj_frame _ t _ st' h
            exact this
          · rw [if_neg hd] at h
            simp only [Option.some.injEq] at h
            subst h
            exact ⟨rfl, rfl, rfl, rfl, fun j => rfl⟩

/-! Claim C4: Rect.center is the integer midpoint. -/

/-- Claim C4: for every room, center() returns the integer-midpoint pair
((x1+x2) div 2, (y1+y2) div 2) (Python 2 floor division of ints); moreover,
for the sizes the generator draws (w, h ≥ 2) it lies strictly inside the
room's carved interior, so it is usable as the player's position and as a
tunnel endpoint: after create_room the center tile is unblocked. -/
theorem rect_center_midpoint (g : Grid) (x y w h : Int) (hw : 2 ≤ w) (hh : 2 ≤ h) :
    (Rect.make x y w h).center =
      (((Rect.make x y w h).x1 + (Rect.make x y w h).x2) / 2,
       ((Rect.make x y w h).y1 + (Rect.make x y w h).y2) / 2) ∧
    (Rect.make x y w h).x1 + 1 ≤ (Rect.make x y w h).center.1 ∧
    (Rect.make x y w h).center.1 ≤ (Rect.make x y w h).x2 - 1 ∧
    (Rect.make x y w h).y1 + 1 ≤ (Rect.make x y w h).center.2 ∧
    (Rect.make x y w h).center.2 ≤ (Rect.make x y w h).y2 - 1 ∧
    (createRoom g (Rect.make x y w h)
      (Rect.make x y w h).center.1 (Rect.make x y w h).center.2).blocked = false := by
  refine ⟨rfl, ?_, ?_, ?_, ?_, ?_⟩ <;>
    simp only [Rect.make, Rect.center, createRoom, carveTile]
  · omega
  · omega
  · omega
  · omega
  · rw [if_pos (by constructor <;> [omega; constructor <;> [omega; constructor <;> omega]])]

/-- Witness for C4 at the concrete room Rect(0, 0, 6, 6). -/
theorem rect_center_midpoint_witness :
    (Rect.make 0 0 6 6).center = (3, 3) ∧
    (createRoom initialGrid (Rect.make 0 0 6 6) 3 3).blocked = false := by
  have h := rect_center_midpoint initialGrid 0 0 6 6 (by decide) (by decide)
  exact ⟨by decide, by simpa using h.2.2.2.2.2⟩

/-! Claim C3: grid bounds. -/

/-- Claim C3 counterexample: on the program's freshly built map, the tile
read `map[-1][0]` does not fail with an out-of-bounds condition — it
silently returns the in-range tile of column MAP_WIDTH - 1 = 79 (Python
negative indexing), contradicting the claim that every out-of-range access
fails. -/
theorem pyread_neg_wrap_counterexample :
    pyGet2 initMapPy (-1) 0 = some (Tile.make true none) ∧
    pyGet2 initMapPy (-1) 0 = pyGet2 initMapPy 79 0 ∧
    pyBlockedRead initMapPy (-1) 0 = some true := by
  refine ⟨?_, ?_, ?_⟩ <;> decide

/-- Python list indexing for one axis: an index past the end or below -len
fails (IndexError, modelled as none), and a negative index in [-len, 0)
silently wraps to len + i. -/
theorem pyIdx_bounds {α : Type} (l : List α) (i : Int) :
    ((l.length : Int) ≤ i → pyIdx l i = none) ∧
    (i + (l.length : Int) < 0 → pyIdx l i = none) ∧
    (i < 0 → 0 ≤ i + (l.length : Int) → pyIdx l i = pyIdx l (i + (l.length : Int))) := by
  refine ⟨?_, ?_, ?_⟩
  · intro hi
    have h0 : 0 ≤ i := le_trans (by positivity) hi
    simp only [pyIdx, if_pos h0]
    exact List.get?_eq_none.mpr (by omega)
  · intro hi
    simp only [pyIdx, if_neg (by omega : ¬ 0 ≤ i),
      if_neg (by omega : ¬ 0 ≤ i + (l.length : Int))]
  · intro hneg hwrap
    simp only [pyIdx, if_neg (by omega : ¬ 0 ≤ i), if_pos hwrap,
      if_pos (by omega : (0 : Int) ≤ i + (l.length : Int))]

/-- Claim C3 (amended): accesses with x ≥ width or x < -width do fail
(IndexError, modelled as none), but a negative x with -width ≤ x < 0 is
silently wrapped to the in-range column width + x instead of failing; the
same asymmetry holds for the row index y within a column (y ≥ height or
y < -height fail, a negative y in [-height, 0) wraps to height + y). -/
theorem pyread_bounds_amended (m : List (List Tile)) (x y : Int) :
    ((m.length : Int) ≤ x → pyGet2 m x y = none) ∧
    (x + (m.length : Int) < 0 → pyGet2 m x y = none) ∧
    (x < 0 → 0 ≤ x + (m.length : Int) →
      pyGet2 m x y = pyGet2 m (x + (m.length : Int)) y) ∧
    ∀ col, pyIdx m x = some col →
      (((col.length : Int) ≤ y → pyGet2 m x y = none) ∧
       (y + (col.length : Int) < 0 → pyGet2 m x y = none) ∧
       (y < 0 → 0 ≤ y + (col.length : Int) →
         pyGet2 m x y = pyGet2 m x (y + (col.length : Int)))) := by
  obtain ⟨hx1, hx2, hx3⟩ := pyIdx_bounds m x
  refine ⟨?_, ?_, ?_, ?_⟩
  · intro hx
    simp [pyGet2, hx1 hx]
  · intro hx
    simp [pyGet2, hx2 hx]
  · intro hneg hwrap
    simp only [pyGet2, hx3 hneg hwrap]
  · intro col hcol
    obtain ⟨hy1, hy2, hy3⟩ := pyIdx_bounds col y
    refine ⟨?_, ?_, ?_⟩
    · intro hy
      simp [pyGet2, hcol, hy1 hy]
    · intro hy
      simp [pyGet2, hcol, hy2 hy]
    · intro hneg hwrap
      simp only [pyGet2, hcol, Option.some_bind]
      exact hy3 hneg hwrap

/-- Witness for the amended C3 at the program's initial 80 x 45 map, on
both axes. -/
theorem pyread_bounds_amended_witness :
    pyGet2 initMapPy 80 0 = none ∧
    pyGet2 initMapPy (-100) 0 = none ∧
    pyGet2 initMapPy (-1) 0 = pyGet2 initMapPy 79 0 ∧
    pyGet2 initMapPy 0 45 = none ∧
    pyGet2 initMapPy 0 (-100) = none ∧
    pyGet2 initMapPy 0 (-1) = pyGet2 initMapPy 0 44 := by
  have hxwrap := pyread_bounds_amended initMapPy (-1) 0
  have h80 := pyread_bounds_amended initMapPy 80 0
  have hneg := pyread_bounds_amended initMapPy (-100) 0
  have hy45 := pyread_bounds_amended initMapPy 0 45
  have hyneg := pyread_bounds_amended initMapPy 0 (-100)
  have hywrap := pyread_bounds_amended initMapPy 0 (-1)
  have hcol : pyIdx initMapPy (0 : Int) =
      some ((List.range MAP_HEIGHT.toNat).map (fun _ => Tile.make true none)) := by
    decide
  refine ⟨h80.1 (by decide), hneg.2.1 (by decide), ?_, ?_, ?_, ?_⟩
  · have hx := hxwrap.2.2.1 (by decide) (by decide)
    simpa using hx
  · exact (hy45.2.2.2 _ hcol).1 (by decide)
  · exact (hyneg.2.2.2 _ hcol).2.1 (by decide)
  · have hy := (hywrap.2.2.2 _ hcol).2.2 (by decide) (by decide)
    rw [(by decide : ((-1 : Int) +
      ((((List.range MAP_HEIGHT.toNat).map (fun _ => Tile.make true none)).length : Nat) : Int))
        = 44)] at hy
    exact hy

/-! Claim C1: attack damage and events. -/

/-- Claim C1 counterexample: attacker power P = 1 against defender defense
D = 2 gives P - D = -1 ≤ 0; the defender's hp stays 10 as claimed, but the
attack emits a hit event (with damage -1) and not a no-effect event, because
the source tests `if damage:` (nonzero) rather than `damage > 0`. -/
theorem attack_negative_damage_counterexample :
    (attackObj stC1 0 1).map
        (fun s => (s.log, ((s.objects[1]?).bind Obj.fighter).map Fighter.hp)) =
      some ([Msg.attackHit (-1)], some 10) := by
  decide

/-- Claim C1 (amended): attack changes the defender's hp by exactly
max 0 (P - D) — never increasing it — and emits the no-effect event exactly
when P - D = 0; for any nonzero P - D, negative included, it emits a hit
event carrying the raw damage (with hp untouched when P - D < 0). -/
theorem attack_behavior (st : GState) (a t : Nat) (ao tg : Obj) (af tf : Fighter)
    (ha : st.objects[a]? = some ao) (haf : ao.fighter = some af)
    (ht : st.objects[t]? = some tg) (htf : tg.fighter = some tf) :
    ∃ st' deathMsgs, attackObj st a t = some st' ∧
      st'.log = deathMsgs ++ (if af.power - tf.defense = 0 then Msg.attackNoEffect
                 else Msg.attackHit (af.power - tf.defense)) :: st.log ∧
      ∀ f', (st'.objects[t]?).bind Obj.fighter = some f' →
        f'.hp = tf.hp - max 0 (af.power - tf.defense) ∧ f'.hp ≤ tf.hp := by
  have hlen : t < st.objects.length := (List.getElem?_eq_some.mp ht).1
  simp only [attackObj, ha, haf, ht, htf]
  by_cases hd : af.power - tf.defense = 0
  · refine ⟨_, [], by rw [if_neg (by omega)], by simp [hd], ?_⟩
    intro f' hf'
    simp only [ht] at hf'
    simp only [Option.bind, htf, Option.some.injEq] at hf'
    subst hf'
    simp [hd]
  · rw [if_pos hd]
    simp only [takeDamageObj, ht, htf, setObjAt]
    set f' := tf.applyDamage (af.power - tf.defense) with hfdef
    have hhp : f'.hp = tf.hp - max 0 (af.power - tf.defense) := by
      rw [hfdef]
      unfold Fighter.applyDamage
      by_cases hpos : af.power - tf.defense > 0
      · rw [if_pos hpos]; simp; omega
      · rw [if_neg hpos]; omega
    by_cases hdead : f'.hp ≤ 0
    · rw [if_pos hdead]
      cases hdf : f'.death_function with
      | none =>
        refine ⟨_, [], rfl, by simp [hd], ?_⟩
        intro f'' hf''
        rw [List.getElem?_set_self (by simpa using hlen)] at hf''
        simp only [Option.bind, Option.some.injEq] at hf''
        subst hf''
        exact ⟨hhp, by omega⟩
      | some k =>
        cases k with
        | player =>
          refine ⟨_, [Msg.playerDied], rfl, ?_, ?_⟩
          · simp only [applyDeath, List.getElem?_set_self (by simpa using hlen)]
            rw [if_neg hd]
            rfl
          · intro f'' hf''
            simp only [applyDeath, List.getElem?_set_self (by simpa using hlen)] at hf''
            rw [List.getElem?_set_self (by simpa using hlen)] at hf''
            simp only [Option.bind, Option.some.injEq] at hf''
            subst hf''
            exact ⟨hhp, by omega⟩
        | monster =>
          refine ⟨_, [Msg.monsterDied tg.name], rfl, ?_, ?_⟩
          · simp only [applyDeath, List.getElem?_set_self (by simpa using hlen)]
            rw [if_neg hd]
            rfl
          · intro f'' hf''
            simp only [applyDeath, List.getElem?_set_self (by simpa using hlen)] at hf''
            rw [List.getElem?_set_self (by simpa using hlen)] at hf''
            simp at hf''
    · rw [if_neg hdead]
      refine ⟨_, [], rfl, by simp [hd], ?_⟩
      intro f'' hf''
      rw [List.getElem?_set_self (by simpa using hlen)] at hf''
      simp only [Option.bind, Option.some.injEq] at hf''
      subst hf''
      exact ⟨hhp, by omega⟩

/-- Witness for the amended C1 on the concrete session stC1 (P = 1, D = 2). -/
theorem attack_behavior_witness :
    ∃ st' deathMsgs, attackObj stC1 0 1 = some st' ∧
      st'.log = deathMsgs ++ Msg.attackHit (-1) :: stC1.log ∧
      ∀ f', (st'.objects[1]?).bind Obj.fighter = some f' →
        f'.hp = 10 - max 0 (-1) ∧ f'.hp ≤ 10 := by
  have h := attack_behavior stC1 0 1 atkW defW
    (Fighter.make 5 0 1 none) (Fighter.make 10 2 0 none)
    (by decide) (by decide) (by decide) (by decide)
  simpa using h

/-! Claim C7: the fov_recompute flag. -/

/-- Claim C7 counterexample: the player at (1,1) is walled in; moving right
targets the blocked cell (2,1), the position stays (1,1), yet fov_recompute
is set to true — the source sets the flag after any non-attack move attempt,
successful or not. -/
theorem fov_flag_blocked_move_counterexample :
    (playerMoveOrAttack stC7 1 0).map
        (fun s => ((s.objects[0]?).map (fun o => (o.x, o.y)), s.fov_recompute)) =
      some (some (1, 1), true) ∧ stC7.fov_recompute = false := by
  constructor <;> decide

/-- Claim C7 (amended): a player movement intent sets the
visibility-recompute flag whenever it resolves to a move attempt (no
fighter-bearing object at the target cell), regardless of whether the move
succeeds; an attack resolution leaves the flag and the player's position
unchanged. -/
theorem fov_flag_behavior (st : GState) (dx dy : Int) (p : Obj)
    (hp : st.objects[0]? = some p) (hpf : p.fighter.isSome = true) :
    (st.objects.findIdx? (fun o => o.fighter.isSome && o.x == p.x + dx && o.y == p.y + dy)
        = none →
      ∃ st', playerMoveOrAttack st dx dy = some st' ∧ st'.fov_recompute = true) ∧
    (∀ t, st.objects.findIdx? (fun o => o.fighter.isSome && o.x == p.x + dx && o.y == p.y + dy)
        = some t →
      ∃ st', playerMoveOrAttack st dx dy = some st' ∧
        st'.fov_recompute = st.fov_recompute ∧
        posAt st' 0 = some (p.x, p.y)) := by
  constructor
  · intro hfind
    refine ⟨{ moveObj st 0 dx dy with fov_recompute := true }, ?_, rfl⟩
    simp only [playerMoveOrAttack, hp, hfind]
  · intro t hfind
    obtain ⟨pf, hpf'⟩ := Option.isSome_iff_exists.mp hpf
    obtain ⟨tg, htg, hpred⟩ := list_findIdx?_spec _ _ _ hfind
    simp only [Bool.and_eq_true] at hpred
    obtain ⟨tf, htf'⟩ := Option.isSome_iff_exists.mp hpred.1.1
    obtain ⟨st', hst'⟩ := attackObj_some st 0 t p tg pf tf hp hpf' htg htf'
    have hfr := attackObj_frame st 0 t st' hst'
    refine ⟨st', ?_, hfr.1, ?_⟩
    · simp only [playerMoveOrAttack, hp, hfind]
      exact hst'
    · rw [hfr.2.2.2.2 0]
      simp [posAt, hp]

/-- Witness for the amended C7: on stC7 a blocked move attempt still exists
and sets the flag. -/
theorem fov_flag_behavior_witness :
    ∃ st', playerMoveOrAttack stC7 1 0 = some st' ∧ st'.fov_recompute = true := by
  have h := fov_flag_behavior stC7 1 0 (playerAt 1 1) (by decide) (by decide)
  exact h.1 (by decide)

/-! Claim C9: the normalizing division of move_towards. -/

/-- Claim C9: whenever the BasicMonster moving branch runs (monster in the
player's fov and distance_to(player) ≥ 2, i.e. squared distance ≥ 4), the
division by the distance in move_towards is well-defined (the squared
distance is nonzero, so no ZeroDivisionError) and each rounded step
component lies in {-1, 0, 1}. -/
theorem take_turn_step_safe (st : GState) (i : Nat) (m p : Obj)
    (hm : st.objects[i]? = some m) (hfov : st.fov m.x m.y = true)
    (hp : st.objects[0]? = some p) (hd : 4 ≤ distSq m p) :
    ((p.x - m.x) ^ 2 + (p.y - m.y) ^ 2 ≠ 0) ∧
    ∃ st', moveTowards st i p.x p.y = some st' ∧ takeTurn st i = some st' ∧
      (roundDiv (p.x - m.x) ((p.x - m.x) ^ 2 + (p.y - m.y) ^ 2) = -1 ∨
       roundDiv (p.x - m.x) ((p.x - m.x) ^ 2 + (p.y - m.y) ^ 2) = 0 ∨
       roundDiv (p.x - m.x) ((p.x - m.x) ^ 2 + (p.y - m.y) ^ 2) = 1) ∧
      (roundDiv (p.y - m.y) ((p.x - m.x) ^ 2 + (p.y - m.y) ^ 2) = -1 ∨
       roundDiv (p.y - m.y) ((p.x - m.x) ^ 2 + (p.y - m.y) ^ 2) = 0 ∨
       roundDiv (p.y - m.y) ((p.x - m.x) ^ 2 + (p.y - m.y) ^ 2) = 1) := by
  have hds : distSq m p = (p.x - m.x) ^ 2 + (p.y - m.y) ^ 2 := rfl
  have hs : (p.x - m.x) ^ 2 + (p.y - m.y) ^ 2 ≠ 0 := by rw [hds] at hd; omega
  refine ⟨hs, moveObj st i (roundDiv (p.x - m.x) ((p.x - m.x) ^ 2 + (p.y - m.y) ^ 2))
    (roundDiv (p.y - m.y) ((p.x - m.x) ^ 2 + (p.y - m.y) ^ 2)), ?_, ?_, ?_, ?_⟩
  · simp only [moveTowards, hm]
    rw [if_neg hs]
  · simp only [takeTurn, hm, hfov, if_true, hp]
    rw [if_pos hd]
    simp only [moveTowards, hm]
    rw [if_neg hs]
  · unfold roundDiv
    split
    · split
      · exact Or.inr (Or.inr rfl)
      · exact Or.inr (Or.inl rfl)
    · split
      · exact Or.inl rfl
      · exact Or.inr (Or.inl rfl)
  · unfold roundDiv
    split
    · split
      · exact Or.inr (Or.inr rfl)
      · exact Or.inr (Or.inl rfl)
    · split
      · exact Or.inl rfl
      · exact Or.inr (Or.inl rfl)

/-- Witness for C9 on stC9: monster at (0,0), player at (0,2), squared
distance exactly 4. -/
theorem take_turn_step_safe_witness :
    ∃ st', moveTowards stC9 1 0 2 = some st' ∧ takeTurn stC9 1 = some st' ∧
      (roundDiv 0 4 = -1 ∨ roundDiv 0 4 = 0 ∨ roundDiv 0 4 = 1) ∧
      (roundDiv 2 4 = -1 ∨ roundDiv 2 4 = 0 ∨ roundDiv 2 4 = 1) := by
  have h := take_turn_step_safe stC9 1 (orcAt 0 0) (playerAt 0 2)
    (by decide) rfl (by decide) (by decide)
  simpa using h.2

/-! Claim C2: death idempotence. -/

/-- Claim C2 counterexample: the player death variant keeps the Fighter
component; calling takeDamage again (damage 0) on the already-dead player
re-invokes the death handler — the log gains a second death print, so the
handler is not invoked exactly once. -/
theorem dead_player_take_damage_refires_counterexample :
    (takeDamageObj stC2 0 0).map (fun s => s.log) =
      some [Msg.playerDied, Msg.playerDied] := by
  decide

/-- Claim C2 (amended): the monster death variant removes the Fighter
component, so any later entity-level takeDamage on that monster fails with
no effect and cannot re-fire its handler; the player death variant keeps
the Fighter and a direct repeat takeDamage does re-invoke the handler, but
the monsters' turn logic only attacks while the player's hp is positive, so
no turn ever issues that call (a monster turn against a dead player leaves
the log and every fighter unchanged). -/
theorem death_idempotence_amended :
    (∀ st i o, st.objects[i]? = some o →
      fighterAt (applyDeath st i DeathKind.monster) i = none) ∧
    (∀ st i d, fighterAt st i = none → takeDamageObj st i d = none) ∧
    (∀ st i st' pf, fighterAt st 0 = some pf → pf.hp ≤ 0 →
      takeTurn st i = some st' →
        st'.log = st.log ∧ ∀ j, fighterAt st' j = fighterAt st j) := by
  refine ⟨?_, ?_, ?_⟩
  · intro st i o ho
    have hlen : i < st.objects.length := (List.getElem?_eq_some.mp ho).1
    simp only [applyDeath, ho, fighterAt]
    rw [List.getElem?_set_self hlen]
    rfl
  · intro st i d hf
    cases ho : st.objects[i]? with
    | none => simp only [takeDamageObj, ho]
    | some o =>
      have : o.fighter = none := by
        simp only [fighterAt, ho, Option.bind] at hf
        exact hf
      simp only [takeDamageObj, ho, this]
  · intro st i st' pf hpf hhp htake
    obtain ⟨p, hp, hpfight⟩ : ∃ p, st.objects[0]? = some p ∧ p.fighter = some pf := by
      cases hp0 : st.objects[0]? with
      | none => simp [fighterAt, hp0] at hpf
      | some p =>
        refine ⟨p, rfl, ?_⟩
        simpa [fighterAt, hp0, Option.bind] using hpf
    cases hm : st.objects[i]? with
    | none =>
      simp only [takeTurn, hm] at htake
      exact Option.noConfusion htake
    | some monster =>
      by_cases hfov : st.fov monster.x monster.y
      · by_cases hdist : distSq monster p ≥ 4
        · simp only [takeTurn, hm, hfov, if_true, hp] at htake
          rw [if_pos hdist] at htake
          simp only [moveTowards, hm] at htake
          by_cases hz : (p.x - monster.x) ^ 2 + (p.y - monster.y) ^ 2 = 0
          · rw [if_pos hz] at htake
            exact Option.noConfusion htake
          · rw [if_neg hz] at htake
            simp only [Option.some.injEq] at htake
            subst htake
            have hfr := moveObj_frame st i (roundDiv (p.x - monster.x)
              ((p.x - monster.x) ^ 2 + (p.y - monster.y) ^ 2))
              (roundDiv (p.y - monster.y)
              ((p.x - monster.x) ^ 2 + (p.y - monster.y) ^ 2))
            exact ⟨hfr.1, hfr.2.2.2.2.2.2⟩
        · simp only [takeTurn, hm, hfov, if_true, hp] at htake
          rw [if_neg hdist] at htake
          simp only [hpfight] at htake
          rw [if_neg (by omega : ¬ pf.hp > 0)] at htake
          simp only [Option.some.injEq] at htake
          subst htake
          exact ⟨rfl, fun j => rfl⟩
      · simp only [takeTurn, hm] at htake
        rw [if_neg hfov] at htake
        simp only [Option.some.injEq] at htake
        subst htake
        exact ⟨rfl, fun j => rfl⟩

/-- Witness for the amended C2 on concrete sessions: killing the orc removes
its fighter, a follow-up takeDamage on it fails, and a monster turn against
the dead player changes neither the log nor any fighter. -/
theorem death_idempotence_amended_witness :
    fighterAt (applyDeath stC2b 1 DeathKind.monster) 1 = none ∧
    takeDamageObj (applyDeath stC2b 1 DeathKind.monster) 1 5 = none ∧
    stC2b.log = stC2b.log := by
  have ha := death_idempotence_amended.1 stC2b 1 (orcAt 1 2) (by decide)
  have hb := death_idempotence_amended.2.1 (applyDeath stC2b 1 DeathKind.monster) 1 5 ha
  have hc := death_idempotence_amended.2.2 stC2b 1 stC2b
    ((Fighter.make 30 2 5 (some DeathKind.player)).applyDamage 30)
    (by decide) (by decide) rfl
  exact ⟨ha, hb, hc.1⟩

/-- Rect.intersect is symmetric. -/
theorem Rect.intersect_comm (r o : Rect) : r.intersect o = o.intersect r := by
  unfold Rect.intersect
  by_cases h1 : r.x1 ≤ o.x2 <;> by_cases h2 : o.x1 ≤ r.x2 <;>
    by_cases h3 : r.y1 ≤ o.y2 <;> by_cases h4 : o.y1 ≤ r.y2 <;>
    simp [h1, h2, h3, h4, ge_iff_le]

/-- Any predicate preserved by attempt is preserved by the whole loop. -/
theorem foldl_attempt_preserve (P : GenState → Prop) (hP : ∀ s, P s → P (attempt s))
    (l : List Nat) (s : GenState) (hs : P s) :
    P (List.foldl (fun s _ => attempt s) s l) := by
  induction l generalizing s with
  | nil => exact hs
  | cons a l ih => exact ih _ (hP _ hs)

/-- One generation attempt either rejects (rooms unchanged) or appends one
room of drawn shape that intersects no previously accepted room. -/
theorem attempt_rooms (s : GenState) :
    (attempt s).rooms = s.rooms ∨
    ∃ nr, (attempt s).rooms = s.rooms ++ [nr] ∧
      (∃ x y w h, nr = Rect.make x y w h ∧ 2 ≤ w ∧ 2 ≤ h ∧ 0 ≤ x ∧ 0 ≤ y) ∧
      ∀ r ∈ s.rooms, nr.intersect r = false := by
  simp only [attempt]
  generalize hd1 : randomGetInt ROOM_MIN_SIZE ROOM_MAX_SIZE s.rng = d1
  generalize hd2 : randomGetInt ROOM_MIN_SIZE ROOM_MAX_SIZE d1.2 = d2
  generalize hd3 : randomGetInt 0 (MAP_WIDTH - d1.1 - 1) d2.2 = d3
  generalize hd4 : randomGetInt 0 (MAP_HEIGHT - d2.1 - 1) d3.2 = d4
  have hw : 2 ≤ d1.1 ∧ d1.1 ≤ 10 := by
    have he : d1.1 = ROOM_MIN_SIZE + ((s.rng 0 : Nat) : Int) % (ROOM_MAX_SIZE + 1 - ROOM_MIN_SIZE) := by
      rw [← hd1]; rfl
    rw [he]; simp only [ROOM_MIN_SIZE, ROOM_MAX_SIZE]; omega
  have hh : 2 ≤ d2.1 ∧ d2.1 ≤ 10 := by
    have he : d2.1 = ROOM_MIN_SIZE + ((d1.2 0 : Nat) : Int) % (ROOM_MAX_SIZE + 1 - ROOM_MIN_SIZE) := by
      rw [← hd2]; rfl
    rw [he]; simp only [ROOM_MIN_SIZE, ROOM_MAX_SIZE]; omega
  have hx : 0 ≤ d3.1 := by
    have he : d3.1 = 0 + ((d2.2 0 : Nat) : Int) % (MAP_WIDTH - d1.1 - 1 + 1 - 0) := by
      rw [← hd3]; rfl
    have hnz : (MAP_WIDTH - d1.1 - 1 + 1 - 0 : Int) ≠ 0 := by
      simp only [MAP_WIDTH]; omega
    have hge := Int.emod_nonneg ((d2.2 0 : Nat) : Int) hnz
    rw [he]; omega
  have hy : 0 ≤ d4.1 := by
    have he : d4.1 = 0 + ((d3.2 0 : Nat) : Int) % (MAP_HEIGHT - d2.1 - 1 + 1 - 0) := by
      rw [← hd4]; rfl
    have hnz : (MAP_HEIGHT - d2.1 - 1 + 1 - 0 : Int) ≠ 0 := by
      simp only [MAP_HEIGHT]; omega
    have hge := Int.emod_nonneg ((d3.2 0 : Nat) : Int) hnz
    rw [he]; omega
  split
  · exact Or.inl rfl
  · next hfail =>
    right
    have hnone : ∀ r ∈ s.rooms, (Rect.make d3.1 d4.1 d1.1 d2.1).intersect r = false := by
      intro r hr
      have hany := List.any_eq_false.mp (by simpa using hfail)
      simpa using hany r hr
    refine ⟨Rect.make d3.1 d4.1 d1.1 d2.1, ?_, ⟨d3.1, d4.1, d1.1, d2.1, rfl, hw.1, hh.1, hx, hy⟩, hnone⟩
    split
    · rfl
    · rfl

/-- The attempt step preserves pairwise disjointness of the accepted rooms. -/
theorem attempt_pairwise (s : GenState)
    (hs : s.rooms.Pairwise (fun a b => a.intersect b = false ∧ b.intersect a = false)) :
    (attempt s).rooms.Pairwise (fun a b => a.intersect b = false ∧ b.intersect a = false) := by
  rcases attempt_rooms s with h | ⟨nr, hrooms, _, hnone⟩
  · rwa [h]
  · rw [hrooms, List.pairwise_append]
    refine ⟨hs, List.pairwise_singleton _ _, fun a ha b hb => ?_⟩
    simp only [List.mem_singleton] at hb
    subst hb
    exact ⟨(Rect.intersect_comm a b) ▸ hnone a ha, hnone a ha⟩

/-- Claim C5: after generation completes, for any random stream, the
accepted rooms are pairwise non-intersecting under the inclusive-bound
overlap test (in both orientations of each pair). -/
theorem makeMap_rooms_disjoint (objs0 : List Obj) (rng : RNG) :
    (makeMap objs0 rng).rooms.Pairwise
      (fun a b => a.intersect b = false ∧ b.intersect a = false) := by
  unfold makeMap
  exact foldl_attempt_preserve _ attempt_pairwise _ _ List.Pairwise.nil

/-! Reachability toolkit. -/

/-- Both endpoints of a reach are carved. -/
theorem Reach.endpoints {g : Grid} {p q : Int × Int} (h : Reach g p q) :
    (g p.1 p.2).blocked = false ∧ (g q.1 q.2).blocked = false := by
  induction h with
  | refl hcarved => exact ⟨hcarved, hcarved⟩
  | tail hpq ha hr ih => exact ⟨ih.1, hr⟩

/-- Reach is transitive. -/
theorem reach_concat {g : Grid} {p q r : Int × Int}
    (h1 : Reach g p q) (h2 : Reach g q r) : Reach g p r := by
  induction h2 with
  | refl _ => exact h1
  | tail hqs ha hr ih => exact Reach.tail ih ha hr

/-- Adjacency is symmetric. -/
theorem adj_flip {p q : Int × Int} (h : Adj p q) : Adj q p := by
  rcases h with ⟨h1, h2⟩ | ⟨h1, h2⟩ | ⟨h1, h2⟩ | ⟨h1, h2⟩
  · exact Or.inr (Or.inl ⟨by omega, by omega⟩)
  · exact Or.inl ⟨by omega, by omega⟩
  · exact Or.inr (Or.inr (Or.inr ⟨by omega, by omega⟩))
  · exact Or.inr (Or.inr (Or.inl ⟨by omega, by omega⟩))

/-- Reach is symmetric. -/
theorem reach_flip {g : Grid} {p q : Int × Int} (h : Reach g p q) : Reach g q p := by
  induction h with
  | refl hcarved => exact Reach.refl _ hcarved
  | tail hpq ha hr ih =>
    exact reach_concat (Reach.tail (Reach.refl _ hr) (adj_flip ha) hpq.endpoints.2) ih

/-- Reach is preserved when the grid only carves further. -/
theorem Reach.mono {g g' : Grid} (hm : CarveMono g g') {p q : Int × Int}
    (h : Reach g p q) : Reach g' p q := by
  induction h with
  | refl hcarved => exact Reach.refl _ (hm _ _ hcarved)
  | tail hpq ha hr ih => exact Reach.tail ih ha (hm _ _ hr)

theorem CarveMono.rfl (g : Grid) : CarveMono g g := fun _ _ h => h

theorem CarveMono.comp {g1 g2 g3 : Grid} (h1 : CarveMono g1 g2)
    (h2 : CarveMono g2 g3) : CarveMono g1 g3 := fun x y h => h2 x y (h1 x y h)

/-- createRoom only carves. -/
theorem createRoom_mono (g : Grid) (room : Rect) : CarveMono g (createRoom g room) := by
  intro x y h
  unfold createRoom
  split
  · simp [carveTile]
  · exact h

/-- create_h_tunnel only carves. -/
theorem createHTunnel_mono (g : Grid) (x1 x2 y0 : Int) :
    CarveMono g (createHTunnel g x1 x2 y0) := by
  intro x y h
  unfold createHTunnel
  split
  · simp [carveTile]
  · exact h

/-- create_v_tunnel only carves. -/
theorem createVTunnel_mono (g : Grid) (y1 y2 x0 : Int) :
    CarveMono g (createVTunnel g y1 y2 x0) := by
  intro x y h
  unfold createVTunnel
  split
  · simp [carveTile]
  · exact h

/-- Every tile of a horizontal tunnel's range is carved. -/
theorem createHTunnel_carves (g : Grid) (x1 x2 y0 t : Int)
    (h1 : min x1 x2 ≤ t) (h2 : t ≤ max x1 x2) :
    ((createHTunnel g x1 x2 y0) t y0).blocked = false := by
  unfold createHTunnel
  rw [if_pos ⟨h1, h2, rfl⟩]
  simp [carveTile]

/-- Every tile of a vertical tunnel's range is carved. -/
theorem createVTunnel_carves (g : Grid) (y1 y2 x0 u : Int)
    (h1 : min y1 y2 ≤ u) (h2 : u ≤ max y1 y2) :
    ((createVTunnel g y1 y2 x0) x0 u).blocked = false := by
  unfold createVTunnel
  rw [if_pos ⟨h1, h2, rfl⟩]
  simp [carveTile]

/-- A fully carved horizontal segment is walkable left to right. -/
theorem reach_hseg (g : Grid) (y a : Int) (n : Nat)
    (hc : ∀ t, a ≤ t → t ≤ a + n → (g t y).blocked = false) :
    Reach g (a, y) (a + (n : Int), y) := by
  induction n with
  | zero =>
    have h0 := hc a le_rfl (by omega)
    simpa using Reach.refl (a, y) h0
  | succ k ih =>
    have hbase := ih (fun t ht1 ht2 => hc t ht1 (by omega))
    have hnext := hc (a + (k : Int) + 1) (by omega) (by push_cast; omega)
    have hadj : Adj (a + (k : Int), y) (a + ((k + 1 : Nat) : Int), y) :=
      Or.inl ⟨by push_cast; omega, rfl⟩
    have : ((a + ((k + 1 : Nat) : Int), y) : Int × Int).1 = a + (k : Int) + 1 := by
      push_cast; omega
    exact Reach.tail hbase hadj (by rw [show (a + ((k + 1 : Nat) : Int)) = a + (k : Int) + 1 by push_cast; omega]; exact hnext)

/-- A fully carved horizontal run connects its two endpoints, either order. -/
theorem reach_h (g : Grid) (y x1 x2 : Int)
    (hc : ∀ t, min x1 x2 ≤ t → t ≤ max x1 x2 → (g t y).blocked = false) :
    Reach g (x1, y) (x2, y) := by
  rcases le_total x1 x2 with h | h
  · have hmin : min x1 x2 = x1 := min_eq_left h
    have hmax : max x1 x2 = x2 := max_eq_right h
    have := reach_hseg g y x1 (x2 - x1).toNat (fun t ht1 ht2 => hc t (by omega) (by omega))
    rwa [show x1 + ((x2 - x1).toNat : Int) = x2 by omega] at this
  · have := reach_hseg g y x2 (x1 - x2).toNat (fun t ht1 ht2 => hc t (by omega) (by omega))
    rw [show x2 + ((x1 - x2).toNat : Int) = x1 by omega] at this
    exact reach_flip this

/-- A fully carved vertical segment is walkable top to bottom. -/
theorem reach_vseg (g : Grid) (x a : Int) (n : Nat)
    (hc : ∀ u, a ≤ u → u ≤ a + n → (g x u).blocked = false) :
    Reach g (x, a) (x, a + (n : Int)) := by
  induction n with
  | zero =>
    have h0 := hc a le_rfl (by omega)
    simpa using Reach.refl (x, a) h0
  | succ k ih =>
    have hbase := ih (fun u hu1 hu2 => hc u hu1 (by omega))
    have hnext := hc (a + (k : Int) + 1) (by omega) (by push_cast; omega)
    have hadj : Adj (x, a + (k : Int)) (x, a + ((k + 1 : Nat) : Int)) :=
      Or.inr (Or.inr (Or.inl ⟨by push_cast; omega, rfl⟩))
    exact Reach.tail hbase hadj (by rw [show (a + ((k + 1 : Nat) : Int)) = a + (k : Int) + 1 by push_cast; omega]; exact hnext)

/-- A fully carved vertical run connects its two endpoints, either order. -/
theorem reach_v (g : Grid) (x y1 y2 : Int)
    (hc : ∀ u, min y1 y2 ≤ u → u ≤ max y1 y2 → (g x u).blocked = false) :
    Reach g (x, y1) (x, y2) := by
  rcases le_total y1 y2 with h | h
  · have := reach_vseg g x y1 (y2 - y1).toNat (fun u hu1 hu2 => hc u (by omega) (by omega))
    rwa [show y1 + ((y2 - y1).toNat : Int) = y2 by omega] at this
  · have := reach_vseg g x y2 (y1 - y2).toNat (fun u hu1 hu2 => hc u (by omega) (by omega))
    rw [show y2 + ((y1 - y2).toNat : Int) = y1 by omega] at this
    exact reach_flip this

/-- The center of a room of drawn size is carved by create_room. -/
theorem room_center_carved (g : Grid) (x y w h : Int) (hw : 2 ≤ w) (hh : 2 ≤ h) :
    ((createRoom g (Rect.make x y w h))
      (Rect.make x y w h).center.1 (Rect.make x y w h).center.2).blocked = false := by
  simp only [Rect.make, Rect.center, createRoom, carveTile]
  rw [if_pos (by constructor <;> [omega; constructor <;> [omega; constructor <;> omega]])]

/-- Full branch characterization of one generation attempt: reject (rooms
and grid unchanged), or accept a first room (carved, no tunnel), or accept
a later room carved and joined to the previous room's center by an
L-shaped tunnel in one of the two leg orders. -/
theorem attempt_cases (s : GenState) :
    ((attempt s).rooms = s.rooms ∧ (attempt s).grid = s.grid) ∨
    ∃ nr, (∃ x y w h, nr = Rect.make x y w h ∧ 2 ≤ w ∧ 2 ≤ h) ∧
      (attempt s).rooms = s.rooms ++ [nr] ∧
      ((s.rooms = [] ∧ (attempt s).grid = createRoom s.grid nr) ∨
       (∃ prevRoom, s.rooms.getLast? = some prevRoom ∧
         ((attempt s).grid =
            createVTunnel (createHTunnel (createRoom s.grid nr)
              prevRoom.center.1 nr.center.1 prevRoom.center.2)
              prevRoom.center.2 nr.center.2 nr.center.1 ∨
          (attempt s).grid =
            createHTunnel (createVTunnel (createRoom s.grid nr)
              prevRoom.center.2 nr.center.2 prevRoom.center.1)
              prevRoom.center.1 nr.center.1 nr.center.2))) := by
  simp only [attempt]
  generalize hd1 : randomGetInt ROOM_MIN_SIZE ROOM_MAX_SIZE s.rng = d1
  generalize hd2 : randomGetInt ROOM_MIN_SIZE ROOM_MAX_SIZE d1.2 = d2
  generalize hd3 : randomGetInt 0 (MAP_WIDTH - d1.1 - 1) d2.2 = d3
  generalize hd4 : randomGetInt 0 (MAP_HEIGHT - d2.1 - 1) d3.2 = d4
  have hw : 2 ≤ d1.1 := by
    have he : d1.1 = ROOM_MIN_SIZE +
        ((s.rng 0 : Nat) : Int) % (ROOM_MAX_SIZE + 1 - ROOM_MIN_SIZE) := by
      rw [← hd1]; rfl
    rw [he]; simp only [ROOM_MIN_SIZE, ROOM_MAX_SIZE]; omega
  have hh : 2 ≤ d2.1 := by
    have he : d2.1 = ROOM_MIN_SIZE +
        ((d1.2 0 : Nat) : Int) % (ROOM_MAX_SIZE + 1 - ROOM_MIN_SIZE) := by
      rw [← hd2]; rfl
    rw [he]; simp only [ROOM_MIN_SIZE, ROOM_MAX_SIZE]; omega
  split
  · exact Or.inl ⟨rfl, rfl⟩
  · right
    refine ⟨Rect.make d3.1 d4.1 d1.1 d2.1, ⟨d3.1, d4.1, d1.1, d2.1, rfl, hw, hh⟩, ?_⟩
    cases hlast : s.rooms.getLast? with
    | none =>
      exact ⟨rfl, Or.inl ⟨List.getLast?_eq_none_iff.mp hlast, rfl⟩⟩
    | some prevRoom =>
      dsimp only
      by_cases hcoin : (randomGetInt 0 1 (placeObjects (createRoom s.grid
          (Rect.make d3.1 d4.1 d1.1 d2.1)) s.objects
          (Rect.make d3.1 d4.1 d1.1 d2.1) d4.2).2).1 = 1
      · rw [if_pos hcoin]
        exact ⟨rfl, Or.inr ⟨prevRoom, rfl, Or.inl rfl⟩⟩
      · rw [if_neg hcoin]
        exact ⟨rfl, Or.inr ⟨prevRoom, rfl, Or.inr rfl⟩⟩

/-- One attempt preserves connectivity of the accepted rooms' centers. -/
theorem attempt_connected (s : GenState) (hs : roomsConnected s.grid s.rooms) :
    roomsConnected (attempt s).grid (attempt s).rooms := by
  rcases attempt_cases s with ⟨hr, hg⟩ | ⟨nr, ⟨x, y, w, h, hnr, hw, hh⟩, hrooms, hbranch⟩
  · rw [hr, hg]; exact hs
  · rcases hbranch with ⟨hempty, hg⟩ | ⟨prevRoom, hlast, hg⟩
    · rw [hrooms, hempty, hg]
      intro r0 hr0 r hr
      simp only [List.nil_append, List.head?_cons, Option.some.injEq] at hr0
      simp only [List.nil_append, List.mem_singleton] at hr
      subst hr0
      subst hr
      subst hnr
      exact Reach.refl _ (room_center_carved s.grid x y w h hw hh)
    · rw [hrooms]
      intro r0 hr0 r hr
      have hne : s.rooms ≠ [] := by
        intro hcon
        rw [hcon] at hlast
        exact Option.noConfusion hlast
      have hr0' : s.rooms.head? = some r0 := by
        rw [List.head?_append] at hr0
        cases hh0 : s.rooms.head? with
        | none => exact absurd (List.head?_eq_none_iff.mp hh0) hne
        | some a =>
          rw [hh0] at hr0
          simpa using hr0
      have hmono : CarveMono s.grid (attempt s).grid := by
        rcases hg with hg | hg <;> rw [hg]
        · exact ((createRoom_mono _ _).comp (createHTunnel_mono _ _ _ _)).comp
            (createVTunnel_mono _ _ _ _)
        · exact ((createRoom_mono _ _).comp (createVTunnel_mono _ _ _ _)).comp
            (createHTunnel_mono _ _ _ _)
      rcases List.mem_append.mp hr with hrold | hrnew
      · exact Reach.mono hmono (hs r0 hr0' r hrold)
      · simp only [List.mem_singleton] at hrnew
        subst hrnew
        have hprev_mem : prevRoom ∈ s.rooms := List.mem_of_mem_getLast? hlast
        have h1 : Reach (attempt s).grid r0.center prevRoom.center :=
          Reach.mono hmono (hs r0 hr0' prevRoom hprev_mem)
        have h2 : Reach (attempt s).grid prevRoom.center r.center := by
          rcases hg with hg | hg
          · rw [hg]
            have hH : Reach (createVTunnel (createHTunnel (createRoom s.grid r)
                prevRoom.center.1 r.center.1 prevRoom.center.2)
                prevRoom.center.2 r.center.2 r.center.1)
                (prevRoom.center.1, prevRoom.center.2) (r.center.1, prevRoom.center.2) := by
              apply reach_h
              intro t ht1 ht2
              exact (createVTunnel_mono _ _ _ _) _ _
                (createHTunnel_carves _ _ _ _ _ ht1 ht2)
            have hV : Reach (createVTunnel (createHTunnel (createRoom s.grid r)
                prevRoom.center.1 r.center.1 prevRoom.center.2)
                prevRoom.center.2 r.center.2 r.center.1)
                (r.center.1, prevRoom.center.2) (r.center.1, r.center.2) := by
              apply reach_v
              intro u hu1 hu2
              exact createVTunnel_carves _ _ _ _ _ hu1 hu2
            have := reach_concat hH hV
            simpa using this
          · rw [hg]
            have hV : Reach (createHTunnel (createVTunnel (createRoom s.grid r)
                prevRoom.center.2 r.center.2 prevRoom.center.1)
                prevRoom.center.1 r.center.1 r.center.2)
                (prevRoom.center.1, prevRoom.center.2) (prevRoom.center.1, r.center.2) := by
              apply reach_v
              intro u hu1 hu2
              exact (createHTunnel_mono _ _ _ _) _ _
                (createVTunnel_carves _ _ _ _ _ hu1 hu2)
            have hH : Reach (createHTunnel (createVTunnel (createRoom s.grid r)
                prevRoom.center.2 r.center.2 prevRoom.center.1)
                prevRoom.center.1 r.center.1 r.center.2)
                (prevRoom.center.1, r.center.2) (r.center.1, r.center.2) := by
              apply reach_h
              intro t ht1 ht2
              exact createHTunnel_carves _ _ _ _ _ ht1 ht2
            have := reach_concat hV hH
            simpa using this
        exact reach_concat h1 h2

/-- Claim C6: after generation, for any random stream, every accepted
room's center is reachable from the first accepted room's center through
carved (blocked = false) tiles only, via the carved rooms and the L-shaped
tunnels between consecutive accepted rooms' centers. -/
theorem makeMap_connectivity (objs0 : List Obj) (rng : RNG) (r0 : Rect)
    (h0 : (makeMap objs0 rng).rooms.head? = some r0) :
    ∀ r ∈ (makeMap objs0 rng).rooms,
      Reach (makeMap objs0 rng).grid r0.center r.center := by
  have hinv := foldl_attempt_preserve (fun s => roomsConnected s.grid s.rooms)
    attempt_connected (List.range MAX_ROOMS)
    { grid := initialGrid, rooms := [], objects := objs0, rng := rng }
    (fun r0 hr0 => Option.noConfusion hr0)
  exact hinv r0 h0

/-- Witness for C6 on the all-zeros stream: a single room Rect(0,0,6,6) is
accepted and its center reaches itself. -/
theorem makeMap_connectivity_witness :
    (makeMap [playerAt 0 0] rngZero).rooms.head? = some (Rect.make 0 0 6 6) ∧
    Reach (makeMap [playerAt 0 0] rngZero).grid
      (Rect.make 0 0 6 6).center (Rect.make 0 0 6 6).center := by
  have hh : (makeMap [playerAt 0 0] rngZero).rooms.head? = some (Rect.make 0 0 6 6) := by
    decide
  exact ⟨hh, makeMap_connectivity [playerAt 0 0] rngZero _ hh _ (by decide)⟩

/-! Fighter-monotonicity toolkit. -/

/-- applyDamage never increases hp. -/
theorem applyDamage_hp_le (f : Fighter) (d : Int) : (f.applyDamage d).hp ≤ f.hp := by
  unfold Fighter.applyDamage
  split
  · simp; omega
  · exact le_rfl

/-- applyDamage keeps max_hp. -/
theorem applyDamage_max_hp (f : Fighter) (d : Int) : (f.applyDamage d).max_hp = f.max_hp := by
  unfold Fighter.applyDamage
  split <;> rfl

/-- applyDamage keeps the death callback. -/
theorem applyDamage_df (f : Fighter) (d : Int) :
    (f.applyDamage d).death_function = f.death_function := by
  unfold Fighter.applyDamage
  split <;> rfl

theorem FighterLe.refl (st : GState) : FighterLe st st :=
  fun i f' hf' => ⟨f', hf', le_rfl, rfl⟩

theorem fighterLe_trans {s t u : GState} (h1 : FighterLe s t) (h2 : FighterLe t u) :
    FighterLe s u := by
  intro i f' hf'
  obtain ⟨fm, hfm, hle2, hmax2⟩ := h2 i f' hf'
  obtain ⟨f, hf, hle1, hmax1⟩ := h1 i fm hfm
  exact ⟨f, hf, le_trans hle2 hle1, hmax2.trans hmax1⟩

/-- States with identical objects are FighterLe-equivalent. -/
theorem FighterLe.of_objects_eq {s t : GState} (h : t.objects = s.objects) :
    FighterLe s t := by
  intro i f' hf'
  refine ⟨f', ?_, le_rfl, rfl⟩
  rw [fighterAt, ← h]
  exact hf'

/-- Setting an object whose fighter has not gained hp keeps FighterLe. -/
theorem set_fighterLe (st : GState) (i : Nat) (o o' : Obj) (ho : st.objects[i]? = some o)
    (hrel : ∀ f', o'.fighter = some f' →
      ∃ f, o.fighter = some f ∧ f'.hp ≤ f.hp ∧ f'.max_hp = f.max_hp) :
    FighterLe st (setObjAt st i o') := by
  intro j f' hf'
  have hlen : i < st.objects.length := (List.getElem?_eq_some.mp ho).1
  by_cases hij : i = j
  · subst hij
    rw [fighterAt, setObjAt] at hf'
    simp only [] at hf'
    rw [List.getElem?_set_self hlen] at hf'
    simp only [Option.bind] at hf'
    obtain ⟨f, hf, hle, hmax⟩ := hrel f' hf'
    exact ⟨f, by simp [fighterAt, ho, Option.bind, hf], hle, hmax⟩
  · rw [fighterAt, setObjAt] at hf'
    simp only [] at hf'
    rw [List.getElem?_set_ne hij] at hf'
    exact ⟨f', hf', le_rfl, rfl⟩

/-- The death handlers never change hp or max_hp of a surviving fighter. -/
theorem applyDeath_fighterLe (st : GState) (i : Nat) (k : DeathKind) :
    FighterLe st (applyDeath st i k) := by
  cases ho : st.objects[i]? with
  | none =>
    apply FighterLe.of_objects_eq
    simp [applyDeath, ho]
  | some o =>
    cases k with
    | player =>
      have : applyDeath st i DeathKind.player =
          { st with game_state := GameStatus.dead,
                    log := Msg.playerDied :: st.log,
                    objects := st.objects.set i
                      { o with char := ('%'), color := Color.darkRed } } := by
        simp [applyDeath, ho]
      rw [this]
      intro j f' hf'
      have hle := set_fighterLe st i o { o with char := ('%'), color := Color.darkRed } ho
        (fun f' hfo => ⟨f', hfo, le_rfl, rfl⟩)
      exact hle j f' hf'
    | monster =>
      have : applyDeath st i DeathKind.monster =
          { st with log := Msg.monsterDied o.name :: st.log,
                    objects := st.objects.set i
                      { o with char := ('%'), color := Color.darkRed, blocks := false,
                               fighter := none, ai := none,
                               name := ("remains of " ++ o.name) } } := by
        simp [applyDeath, ho]
      rw [this]
      intro j f' hf'
      have hle := set_fighterLe st i o
        { o with char := ('%'), color := Color.darkRed, blocks := false,
                 fighter := none, ai := none, name := ("remains of " ++ o.name) } ho
        (fun f' hfo => Option.noConfusion hfo)
      exact hle j f' hf'

/-- Branch characterization of take_damage on an object. -/
theorem takeDamageObj_cases (st : GState) (i : Nat) (d : Int) (st' : GState)
    (h : takeDamageObj st i d = some st') :
    ∃ o f, st.objects[i]? = some o ∧ o.fighter = some f ∧
      ((¬ (f.applyDamage d).hp ≤ 0 ∧
         st' = setObjAt st i { o with fighter := some (f.applyDamage d) }) ∨
       ((f.applyDamage d).hp ≤ 0 ∧ (f.applyDamage d).death_function = none ∧
         st' = setObjAt st i { o with fighter := some (f.applyDamage d) }) ∨
       (∃ k, (f.applyDamage d).hp ≤ 0 ∧ (f.applyDamage d).death_function = some k ∧
         st' = applyDeath (setObjAt st i { o with fighter := some (f.applyDamage d) }) i k)) := by
  cases ho : st.objects[i]? with
  | none =>
    simp only [takeDamageObj, ho] at h
    exact Option.noConfusion h
  | some o =>
    cases hf : o.fighter with
    | none =>
      simp only [takeDamageObj, ho, hf] at h
      exact Option.noConfusion h
    | some f =>
      simp only [takeDamageObj, ho, hf] at h
      refine ⟨o, f, rfl, hf, ?_⟩
      by_cases hdead : (f.applyDamage d).hp ≤ 0
      · rw [if_pos hdead] at h
        cases hdf : (f.applyDamage d).death_function with
        | none =>
          simp only [hdf, Option.some.injEq] at h
          exact Or.inr (Or.inl ⟨hdead, rfl, h.symm⟩)
        | some k =>
          simp only [hdf, Option.some.injEq] at h
          exact Or.inr (Or.inr ⟨k, hdead, rfl, h.symm⟩)
      · rw [if_neg hdead] at h
        simp only [Option.some.injEq] at h
        exact Or.inl ⟨hdead, h.symm⟩

/-- take_damage never increases any hp and never changes any max_hp. -/
theorem takeDamageObj_fighterLe (st : GState) (i : Nat) (d : Int) (st' : GState)
    (h : takeDamageObj st i d = some st') : FighterLe st st' := by
  obtain ⟨o, f, ho, hf, hbr⟩ := takeDamageObj_cases st i d st' h
  have hset : FighterLe st (setObjAt st i { o with fighter := some (f.applyDamage d) }) :=
    set_fighterLe st i o _ ho (fun f' hfo => by
      simp only [Option.some.injEq] at hfo
      subst hfo
      exact ⟨f, hf, applyDamage_hp_le f d, applyDamage_max_hp f d⟩)
  rcases hbr with ⟨_, hst'⟩ | ⟨_, _, hst'⟩ | ⟨k, _, _, hst'⟩
  · rw [hst']; exact hset
  · rw [hst']; exact hset
  · rw [hst']
    exact fighterLe_trans hset (applyDeath_fighterLe _ i k)

/-- attack never increases any hp and never changes any max_hp. -/
theorem attackObj_fighterLe (st : GState) (a t : Nat) (st' : GState)
    (h : attackObj st a t = some st') : FighterLe st st' := by
  cases ha : st.objects[a]? with
  | none =>
    simp only [attackObj, ha] at h
    exact Option.noConfusion h
  | some ao =>
    cases haf : ao.fighter with
    | none =>
      simp only [attackObj, ha, haf] at h
      exact Option.noConfusion h
    | some af =>
      cases ht : st.objects[t]? with
      | none =>
        simp only [attackObj, ha, haf, ht] at h
        exact Option.noConfusion h
      | some tg =>
        cases htf : tg.fighter with
        | none =>
          simp only [attackObj, ha, haf, ht, htf] at h
          exact Option.noConfusion h
        | some tf =>
          simp only [attackObj, ha, haf, ht, htf] at h
          by_cases hd : af.power - tf.defense ≠ 0
          · rw [if_pos hd] at h
            have hlog : FighterLe st { st with log := Msg.attackHit (af.power - tf.defense) :: st.log } :=
              FighterLe.of_objects_eq rfl
            exact fighterLe_trans hlog (takeDamageObj_fighterLe _ t _ st' h)
          · rw [if_neg hd] at h
            simp only [Option.some.injEq] at h
            subst h
            exact FighterLe.of_objects_eq rfl

/-- Object.move never changes any fighter. -/
theorem moveObj_fighterLe (st : GState) (i : Nat) (dx dy : Int) :
    FighterLe st (moveObj st i dx dy) := by
  intro j f' hf'
  have hfr := (moveObj_frame st i dx dy).2.2.2.2.2.2 j
  rw [hfr] at hf'
  exact ⟨f', hf', le_rfl, rfl⟩

/-- A monster turn never increases any hp and never changes any max_hp. -/
theorem takeTurn_fighterLe (st : GState) (i : Nat) (st' : GState)
    (h : takeTurn st i = some st') : FighterLe st st' := by
  cases hm : st.objects[i]? with
  | none =>
    simp only [takeTurn, hm] at h
    exact Option.noConfusion h
  | some monster =>
    by_cases hfov : st.fov monster.x monster.y
    · simp only [takeTurn, hm, hfov, if_true] at h
      cases hp0 : st.objects[0]? with
      | none =>
        rw [hp0] at h
        exact Option.noConfusion h
      | some player =>
        simp only [hp0] at h
        by_cases hdist : distSq monster player ≥ 4
        · rw [if_pos hdist] at h
          simp only [moveTowards, hm] at h
          by_cases hz : (player.x - monster.x) ^ 2 + (player.y - monster.y) ^ 2 = 0
          · rw [if_pos hz] at h
            exact Option.noConfusion h
          · rw [if_neg hz] at h
            simp only [Option.some.injEq] at h
            subst h
            exact moveObj_fighterLe st i _ _
        · rw [if_neg hdist] at h
          cases hpf : player.fighter with
          | none =>
            simp only [hpf] at h
            exact Option.noConfusion h
          | some pf =>
            simp only [hpf] at h
            by_cases hphp : pf.hp > 0
            · rw [if_pos hphp] at h
              exact attackObj_fighterLe st i 0 st' h
            · rw [if_neg hphp] at h
              simp only [Option.some.injEq] at h
              subst h
              exact FighterLe.refl st
    · simp only [takeTurn, hm] at h
      rw [if_neg hfov] at h
      simp only [Option.some.injEq] at h
      subst h
      exact FighterLe.refl st

/-- One AI-loop entry never increases any hp. -/
theorem aiStep_fighterLe (st : GState) (i : Nat) (st' : GState)
    (h : aiStep st i = some st') : FighterLe st st' := by
  cases ho : st.objects[i]? with
  | none =>
    simp only [aiStep, ho, Option.some.injEq] at h
    subst h
    exact FighterLe.refl st
  | some o =>
    cases hai : o.ai with
    | none =>
      simp only [aiStep, ho, hai, Option.some.injEq] at h
      subst h
      exact FighterLe.refl st
    | some a =>
      simp only [aiStep, ho, hai] at h
      exact takeTurn_fighterLe st i st' h

/-- Folding AI steps never increases any hp. -/
theorem foldlM_aiStep_fighterLe (l : List Nat) (st st' : GState)
    (h : l.foldlM aiStep st = some st') : FighterLe st st' := by
  induction l generalizing st with
  | nil =>
    simp only [List.foldlM_nil] at h
    cases h
    exact FighterLe.refl _
  | cons a l ih =>
    simp only [List.foldlM_cons] at h
    cases hstep : aiStep st a with
    | none =>
      rw [hstep] at h
      exact Option.noConfusion h
    | some stm =>
      rw [hstep] at h
      exact fighterLe_trans (aiStep_fighterLe st a stm hstep) (ih stm h)

/-- The whole AI pass never increases any hp. -/
theorem aiPass_fighterLe (st st' : GState) (h : aiPass st = some st') : FighterLe st st' :=
  foldlM_aiStep_fighterLe _ st st' h

/-- player_move_or_attack never increases any hp. -/
theorem playerMoveOrAttack_fighterLe (st : GState) (dx dy : Int) (st' : GState)
    (h : playerMoveOrAttack st dx dy = some st') : FighterLe st st' := by
  cases hp0 : st.objects[0]? with
  | none =>
    simp only [playerMoveOrAttack, hp0] at h
    exact Option.noConfusion h
  | some p =>
    simp only [playerMoveOrAttack, hp0] at h
    cases hfind : st.objects.findIdx?
        (fun o => o.fighter.isSome && o.x == p.x + dx && o.y == p.y + dy) with
    | some t =>
      rw [hfind] at h
      exact attackObj_fighterLe st 0 t st' h
    | none =>
      rw [hfind] at h
      simp only [Option.some.injEq] at h
      subst h
      have := moveObj_fighterLe st 0 dx dy
      intro j f' hf'
      exact this j f' hf'

/-- handle_keys never increases any hp. -/
theorem handleKeys_fighterLe (st : GState) (k : Key) (st' : GState) (act : PlayerAction)
    (h : handleKeys st k = some (st', act)) : FighterLe st st' := by
  cases k with
  | escape =>
    simp only [handleKeys, Prod.mk.injEq, Option.some.injEq] at h
    rw [← h.1]
    exact FighterLe.refl st
  | up =>
    by_cases hgs : st.game_state = GameStatus.playing
    · simp only [handleKeys, hgs, if_true] at h
      cases hpm : playerMoveOrAttack st 0 (-1) with
      | none => rw [hpm] at h; exact Option.noConfusion h
      | some s1 =>
        rw [hpm] at h
        simp only [Option.map_some', Option.some.injEq, Prod.mk.injEq] at h
        rw [← h.1]
        exact playerMoveOrAttack_fighterLe st 0 (-1) s1 hpm
    · simp only [handleKeys, hgs, if_false, Option.some.injEq, Prod.mk.injEq] at h
      rw [← h.1]
      exact FighterLe.refl st
  | down =>
    by_cases hgs : st.game_state = GameStatus.playing
    · simp only [handleKeys, hgs, if_true] at h
      cases hpm : playerMoveOrAttack st 0 1 with
      | none => rw [hpm] at h; exact Option.noConfusion h
      | some s1 =>
        rw [hpm] at h
        simp only [Option.map_some', Option.some.injEq, Prod.mk.injEq] at h
        rw [← h.1]
        exact playerMoveOrAttack_fighterLe st 0 1 s1 hpm
    · simp only [handleKeys, hgs, if_false, Option.some.injEq, Prod.mk.injEq] at h
      rw [← h.1]
      exact FighterLe.refl st
  | left =>
    by_cases hgs : st.game_state = GameStatus.playing
    · simp only [handleKeys, hgs, if_true] at h
      cases hpm : playerMoveOrAttack st (-1) 0 with
      | none => rw [hpm] at h; exact Option.noConfusion h
      | some s1 =>
        rw [hpm] at h
        simp only [Option.map_some', Option.some.injEq, Prod.mk.injEq] at h
        rw [← h.1]
        exact playerMoveOrAttack_fighterLe st (-1) 0 s1 hpm
    · simp only [handleKeys, hgs, if_false, Option.some.injEq, Prod.mk.injEq] at h
      rw [← h.1]
      exact FighterLe.refl st
  | right =>
    by_cases hgs : st.game_state = GameStatus.playing
    · simp only [handleKeys, hgs, if_true] at h
      cases hpm : playerMoveOrAttack st 1 0 with
      | none => rw [hpm] at h; exact Option.noConfusion h
      | some s1 =>
        rw [hpm] at h
        simp only [Option.map_some', Option.some.injEq, Prod.mk.injEq] at h
        rw [← h.1]
        exact playerMoveOrAttack_fighterLe st 1 0 s1 hpm
    · simp only [handleKeys, hgs, if_false, Option.some.injEq, Prod.mk.injEq] at h
      rw [← h.1]
      exact FighterLe.refl st
  | other =>
    by_cases hgs : st.game_state = GameStatus.playing
    · simp only [handleKeys, hgs, if_true, Option.some.injEq, Prod.mk.injEq] at h
      rw [← h.1]
      exact FighterLe.refl st
    · simp only [handleKeys, hgs, if_false, Option.some.injEq, Prod.mk.injEq] at h
      rw [← h.1]
      exact FighterLe.refl st

/-- Claim C10: across a whole turn of the system, every fighter's hp never
increases and its max_hp never changes after construction; fighters are
constructed with hp = max_hp, so hp ≤ max_hp is invariant (there is no
healing operation anywhere — attack and takeDamage only decrease hp or
leave it unchanged). -/
theorem step_hp_monotone (st : GState) (k : Key) (st' : GState) (act : PlayerAction)
    (h : step st k = some (st', act)) :
    FighterLe st st' ∧
    ((∀ i f, fighterAt st i = some f → f.hp ≤ f.max_hp) →
      ∀ i f', fighterAt st' i = some f' → f'.hp ≤ f'.max_hp) ∧
    (∀ hp0 defense0 power0 df0,
      (Fighter.make hp0 defense0 power0 df0).hp =
        (Fighter.make hp0 defense0 power0 df0).max_hp) := by
  have hle : FighterLe st st' := by
    cases hhk : handleKeys st k with
    | none =>
      simp only [step, hhk] at h
      exact Option.noConfusion h
    | some pair =>
      obtain ⟨st1, act1⟩ := pair
      simp only [step, hhk] at h
      by_cases hexit : act1 = PlayerAction.exit
      · rw [if_pos hexit] at h
        simp only [Option.some.injEq, Prod.mk.injEq] at h
        rw [← h.1]
        exact handleKeys_fighterLe st k st1 act1 hhk
      · rw [if_neg hexit] at h
        by_cases hgate : st1.game_state = GameStatus.playing ∧ act1 ≠ PlayerAction.didntTakeTurn
        · rw [if_pos hgate] at h
          cases hai : aiPass st1 with
          | none =>
            rw [hai] at h
            exact Option.noConfusion h
          | some st2 =>
            rw [hai] at h
            simp only [Option.some.injEq, Prod.mk.injEq] at h
            rw [← h.1]
            exact fighterLe_trans (handleKeys_fighterLe st k st1 act1 hhk) (aiPass_fighterLe st1 st2 hai)
        · rw [if_neg hgate] at h
          simp only [Option.some.injEq, Prod.mk.injEq] at h
          rw [← h.1]
          exact handleKeys_fighterLe st k st1 act1 hhk
  refine ⟨hle, ?_, fun hp0 d0 p0 df0 => rfl⟩
  intro hinv i f' hf'
  obtain ⟨f, hf, hle2, hmax⟩ := hle i f' hf'
  have := hinv i f hf
  omega

/-- Witness for C10: stepping the walled-in session with an unrecognized
key succeeds and every fighter is untouched. -/
theorem step_hp_monotone_witness :
    step stC7 Key.other = some (stC7, PlayerAction.didntTakeTurn) ∧ FighterLe stC7 stC7 :=
  ⟨rfl, (step_hp_monotone stC7 Key.other stC7 PlayerAction.didntTakeTurn rfl).1⟩

/-! Lifecycle-invariant toolkit. -/

/-- fighterAt after replacing the object at the same index. -/
theorem fighterAt_set_self (st : GState) (i : Nat) (o o' : Obj)
    (ho : st.objects[i]? = some o) :
    fighterAt (setObjAt st i o') i = o'.fighter := by
  have hlen : i < st.objects.length := (List.getElem?_eq_some.mp ho).1
  simp [fighterAt, setObjAt, List.getElem?_set_self hlen, Option.bind]

/-- fighterAt after replacing an object at a different index. -/
theorem fighterAt_set_ne (st : GState) (i j : Nat) (o' : Obj) (hij : i ≠ j) :
    fighterAt (setObjAt st i o') j = fighterAt st j := by
  simp [fighterAt, setObjAt, List.getElem?_set_ne hij]

/-- player_death written as a record update. -/
theorem applyDeath_player_eq (st : GState) (i : Nat) (o : Obj)
    (ho : st.objects[i]? = some o) :
    applyDeath st i DeathKind.player =
      { st with game_state := GameStatus.dead,
                log := Msg.playerDied :: st.log,
                objects := st.objects.set i
                  { o with char := ('%'), color := Color.darkRed } } := by
  simp [applyDeath, ho]

/-- monster_death written as a record update. -/
theorem applyDeath_monster_eq (st : GState) (i : Nat) (o : Obj)
    (ho : st.objects[i]? = some o) :
    applyDeath st i DeathKind.monster =
      { st with log := Msg.monsterDied o.name :: st.log,
                objects := st.objects.set i
                  { o with char := ('%'), color := Color.darkRed, blocks := false,
                           fighter := none, ai := none,
                           name := ("remains of " ++ o.name) } } := by
  simp [applyDeath, ho]

/-- The lifecycle invariant transfers along any operation that keeps every
fighter view and the game_state. -/
theorem lifeInv_pres_of_frame {s t : GState} (hf : ∀ j, fighterAt t j = fighterAt s j)
    (hg : t.game_state = s.game_state) (h : LifeInv s) : LifeInv t := by
  obtain ⟨⟨⟨pf, hpf0, hdfp⟩, hmon⟩, hiff⟩ := h
  refine ⟨⟨⟨pf, by rw [hf 0]; exact hpf0, hdfp⟩,
    fun j fj hj0 hfj => hmon j fj hj0 (by rw [← hf j]; exact hfj)⟩, ?_⟩
  rw [hg, hf 0]
  exact hiff

/-- While dead, handle_keys leaves the state untouched. -/
theorem handleKeys_dead (st : GState) (k : Key)
    (hdead : st.game_state = GameStatus.dead) :
    ∃ act1, handleKeys st k = some (st, act1) := by
  have hne : ¬ st.game_state = GameStatus.playing := by
    rw [hdead]
    exact fun hcon => GameStatus.noConfusion hcon
  cases k with
  | escape => exact ⟨PlayerAction.exit, rfl⟩
  | up => exact ⟨PlayerAction.took, by simp [handleKeys, hne]⟩
  | down => exact ⟨PlayerAction.took, by simp [handleKeys, hne]⟩
  | left => exact ⟨PlayerAction.took, by simp [handleKeys, hne]⟩
  | right => exact ⟨PlayerAction.took, by simp [handleKeys, hne]⟩
  | other => exact ⟨PlayerAction.took, by simp [handleKeys, hne]⟩

/-- player_death keeps the dying object's fighter. -/
theorem applyDeath_fighterAt_self_player (st : GState) (i : Nat) (o : Obj)
    (ho : st.objects[i]? = some o) :
    fighterAt (applyDeath st i DeathKind.player) i = o.fighter := by
  rw [applyDeath_player_eq st i o ho]
  exact fighterAt_set_self st i o _ ho

/-- monster_death removes the dying object's fighter. -/
theorem applyDeath_fighterAt_self_monster (st : GState) (i : Nat) (o : Obj)
    (ho : st.objects[i]? = some o) :
    fighterAt (applyDeath st i DeathKind.monster) i = none := by
  rw [applyDeath_monster_eq st i o ho]
  exact fighterAt_set_self st i o _ ho

/-- The death handlers leave every other object's fighter alone. -/
theorem applyDeath_fighterAt_ne (st : GState) (i j : Nat) (k : DeathKind) (hij : i ≠ j) :
    fighterAt (applyDeath st i k) j = fighterAt st j := by
  cases ho : st.objects[i]? with
  | none =>
    have : applyDeath st i k = st := by simp [applyDeath, ho]
    rw [this]
  | some o =>
    cases k with
    | player =>
      rw [applyDeath_player_eq st i o ho]
      exact fighterAt_set_ne st i j _ hij
    | monster =>
      rw [applyDeath_monster_eq st i o ho]
      exact fighterAt_set_ne st i j _ hij

/-- player_death sets game over. -/
theorem applyDeath_gs_player (st : GState) (i : Nat) (o : Obj)
    (ho : st.objects[i]? = some o) :
    (applyDeath st i DeathKind.player).game_state = GameStatus.dead := by
  rw [applyDeath_player_eq st i o ho]

/-- monster_death never touches game_state. -/
theorem applyDeath_gs_monster (st : GState) (i : Nat) :
    (applyDeath st i DeathKind.monster).game_state = st.game_state := by
  cases ho : st.objects[i]? with
  | none => simp [applyDeath, ho]
  | some o => rw [applyDeath_monster_eq st i o ho]

/-- take_damage preserves the lifecycle invariant. -/
theorem takeDamageObj_lifeInv (st : GState) (i : Nat) (d : Int) (st' : GState)
    (hinv : LifeInv st) (h : takeDamageObj st i d = some st') : LifeInv st' := by
  obtain ⟨⟨⟨pf, hpf0, hdfp⟩, hmon⟩, hiff⟩ := hinv
  obtain ⟨o, f, ho, hf, hbr⟩ := takeDamageObj_cases st i d st' h
  have hlen : i < st.objects.length := (List.getElem?_eq_some.mp ho).1
  have hfAi : fighterAt st i = some f := by simp [fighterAt, ho, Option.bind, hf]
  have hdf' : (f.applyDamage d).death_function = f.death_function := applyDamage_df f d
  have hhple : (f.applyDamage d).hp ≤ f.hp := applyDamage_hp_le f d
  have h1self : fighterAt (setObjAt st i { o with fighter := some (f.applyDamage d) }) i =
      some (f.applyDamage d) :=
    fighterAt_set_self st i o _ ho
  have h1ne : ∀ j, j ≠ i →
      fighterAt (setObjAt st i { o with fighter := some (f.applyDamage d) }) j =
        fighterAt st j :=
    fun j hj => fighterAt_set_ne st i j _ (fun hc => hj hc.symm)
  have h1gs : (setObjAt st i { o with fighter := some (f.applyDamage d) }).game_state =
      st.game_state := rfl
  have hw1 : WiredOK (setObjAt st i { o with fighter := some (f.applyDamage d) }) := by
    constructor
    · by_cases hi0 : i = 0
      · subst hi0
        have hfp : pf = f := by
          rw [hpf0] at hfAi
          exact (Option.some.injEq _ _).mp hfAi
        exact ⟨f.applyDamage d, h1self, by rw [hdf', ← hfp]; exact hdfp⟩
      · exact ⟨pf, by rw [h1ne 0 (fun hc => hi0 hc.symm)]; exact hpf0, hdfp⟩
    · intro j fj hj0 hfj
      by_cases hji : j = i
      · subst hji
        rw [h1self] at hfj
        have : fj = f.applyDamage d := ((Option.some.injEq _ _).mp hfj).symm
        subst this
        rw [hdf']
        exact hmon j f hj0 hfAi
      · rw [h1ne j hji] at hfj
        exact hmon j fj hj0 hfj
  rcases hbr with ⟨halive, hst'⟩ | ⟨hdead, hdfn, hst'⟩ | ⟨k, hdead, hdfk, hst'⟩
  · subst hst'
    refine ⟨hw1, ?_⟩
    rw [h1gs]
    by_cases hi0 : i = 0
    · subst hi0
      rw [h1self]
      constructor
      · intro hgdead
        obtain ⟨pf2, hpf2, hple⟩ := hiff.mp hgdead
        rw [hpf0] at hpf2
        have hpf2e : pf = pf2 := (Option.some.injEq _ _).mp hpf2
        have hfp : pf = f := by
          rw [hpf0] at hfAi
          exact (Option.some.injEq _ _).mp hfAi
        rw [← hpf2e, hfp] at hple
        exact absurd (le_trans hhple hple) halive
      · intro hex
        obtain ⟨pf2, hpf2, hple⟩ := hex
        have hpf2e : pf2 = f.applyDamage d := ((Option.some.injEq _ _).mp hpf2).symm
        subst hpf2e
        exact absurd hple halive
    · rw [h1ne 0 (fun hc => hi0 hc.symm)]
      exact hiff
  · exfalso
    by_cases hi0 : i = 0
    · subst hi0
      have hfp : pf = f := by
        rw [hpf0] at hfAi
        exact (Option.some.injEq _ _).mp hfAi
      rw [hdf', ← hfp, hdfp] at hdfn
      exact Option.noConfusion hdfn
    · have hm := hmon i f (fun hc => hi0 hc) hfAi
      rw [hdf', hm] at hdfn
      exact Option.noConfusion hdfn
  · have ho1 : (setObjAt st i { o with fighter := some (f.applyDamage d) }).objects[i]? =
        some { o with fighter := some (f.applyDamage d) } := by
      simp [setObjAt, List.getElem?_set_self hlen]
    by_cases hi0 : i = 0
    · subst hi0
      have hfp : pf = f := by
        rw [hpf0] at hfAi
        exact (Option.some.injEq _ _).mp hfAi
      have hk : k = DeathKind.player := by
        rw [hdf', ← hfp, hdfp] at hdfk
        exact ((Option.some.injEq _ _).mp hdfk).symm
      subst hk
      subst hst'
      have hself : fighterAt (applyDeath
          (setObjAt st 0 { o with fighter := some (f.applyDamage d) }) 0 DeathKind.player) 0 =
          some (f.applyDamage d) :=
        applyDeath_fighterAt_self_player _ 0 _ ho1
      have hne2 : ∀ j, j ≠ 0 → fighterAt (applyDeath
          (setObjAt st 0 { o with fighter := some (f.applyDamage d) }) 0 DeathKind.player) j =
          fighterAt st j := fun j hj => by
        rw [applyDeath_fighterAt_ne _ 0 j _ (fun hc => hj hc.symm)]
        exact h1ne j (fun hc => hj hc)
      refine ⟨⟨⟨f.applyDamage d, hself, by rw [hdf', ← hfp]; exact hdfp⟩, ?_⟩, ?_⟩
      · intro j fj hj0 hfj
        rw [hne2 j hj0] at hfj
        exact hmon j fj hj0 hfj
      · rw [applyDeath_gs_player _ 0 _ ho1]
        exact iff_of_true rfl ⟨f.applyDamage d, hself, hdead⟩
    · have hk : k = DeathKind.monster := by
        have hm := hmon i f (fun hc => hi0 hc) hfAi
        rw [hdf', hm] at hdfk
        exact ((Option.some.injEq _ _).mp hdfk).symm
      subst hk
      subst hst'
      have hselfm : fighterAt (applyDeath
          (setObjAt st i { o with fighter := some (f.applyDamage d) }) i DeathKind.monster) i =
          none :=
        applyDeath_fighterAt_self_monster _ i _ ho1
      have hne2 : ∀ j, j ≠ i → fighterAt (applyDeath
          (setObjAt st i { o with fighter := some (f.applyDamage d) }) i DeathKind.monster) j =
          fighterAt st j := fun j hj => by
        rw [applyDeath_fighterAt_ne _ i j _ (fun hc => hj hc.symm)]
        exact h1ne j hj
      refine ⟨⟨⟨pf, by rw [hne2 0 (fun hc => hi0 hc.symm)]; exact hpf0, hdfp⟩, ?_⟩, ?_⟩
      · intro j fj hj0 hfj
        by_cases hji : j = i
        · subst hji
          rw [hselfm] at hfj
          exact Option.noConfusion hfj
        · rw [hne2 j hji] at hfj
          exact hmon j fj hj0 hfj
      · rw [applyDeath_gs_monster, h1gs, hne2 0 (fun hc => hi0 hc.symm)]
        exact hiff

/-- attack preserves the lifecycle invariant. -/
theorem attackObj_lifeInv (st : GState) (a t : Nat) (st' : GState)
    (hinv : LifeInv st) (h : attackObj st a t = some st') : LifeInv st' := by
  cases ha : st.objects[a]? with
  | none =>
    simp only [attackObj, ha] at h
    exact Option.noConfusion h
  | some ao =>
    cases haf : ao.fighter with
    | none =>
      simp only [attackObj, ha, haf] at h
      exact Option.noConfusion h
    | some af =>
      cases ht : st.objects[t]? with
      | none =>
        simp only [attackObj, ha, haf, ht] at h
        exact Option.noConfusion h
      | some tg =>
        cases htf : tg.fighter with
        | none =>
          simp only [attackObj, ha, haf, ht, htf] at h
          exact Option.noConfusion h
        | some tf =>
          simp only [attackObj, ha, haf, ht, htf] at h
          by_cases hd : af.power - tf.defense ≠ 0
          · rw [if_pos hd] at h
            have hlog : LifeInv { st with log := Msg.attackHit (af.power - tf.defense) :: st.log } :=
              lifeInv_pres_of_frame (fun j => rfl) rfl hinv
            exact takeDamageObj_lifeInv _ t _ st' hlog h
          · rw [if_neg hd] at h
            simp only [Option.some.injEq] at h
            subst h
            exact lifeInv_pres_of_frame (fun j => rfl) rfl hinv

/-- Object.move preserves the lifecycle invariant. -/
theorem moveObj_lifeInv (st : GState) (i : Nat) (dx dy : Int)
    (hinv : LifeInv st) : LifeInv (moveObj st i dx dy) := by
  have hfr := moveObj_frame st i dx dy
  exact lifeInv_pres_of_frame hfr.2.2.2.2.2.2 hfr.2.1 hinv

/-- A monster turn preserves the lifecycle invariant. -/
theorem takeTurn_lifeInv (st : GState) (i : Nat) (st' : GState)
    (hinv : LifeInv st) (h : takeTurn st i = some st') : LifeInv st' := by
  cases hm : st.objects[i]? with
  | none =>
    simp only [takeTurn, hm] at h
    exact Option.noConfusion h
  | some monster =>
    by_cases hfov : st.fov monster.x monster.y
    · simp only [takeTurn, hm, hfov, if_true] at h
      cases hp0 : st.objects[0]? with
      | none =>
        rw [hp0] at h
        exact Option.noConfusion h
      | some player =>
        simp only [hp0] at h
        by_cases hdist : distSq monster player ≥ 4
        · rw [if_pos hdist] at h
          simp only [moveTowards, hm] at h
          by_cases hz : (player.x - monster.x) ^ 2 + (player.y - monster.y) ^ 2 = 0
          · rw [if_pos hz] at h
            exact Option.noConfusion h
          · rw [if_neg hz] at h
            simp only [Option.some.injEq] at h
            subst h
            exact moveObj_lifeInv st i _ _ hinv
        · rw [if_neg hdist] at h
          cases hpf : player.fighter with
          | none =>
            simp only [hpf] at h
            exact Option.noConfusion h
          | some pf =>
            simp only [hpf] at h
            by_cases hphp : pf.hp > 0
            · rw [if_pos hphp] at h
              exact attackObj_lifeInv st i 0 st' hinv h
            · rw [if_neg hphp] at h
              simp only [Option.some.injEq] at h
              subst h
              exact hinv
    · simp only [takeTurn, hm] at h
      rw [if_neg hfov] at h
      simp only [Option.some.injEq] at h
      subst h
      exact hinv

/-- One AI-loop entry preserves the lifecycle invariant. -/
theorem aiStep_lifeInv (st : GState) (i : Nat) (st' : GState)
    (hinv : LifeInv st) (h : aiStep st i = some st') : LifeInv st' := by
  cases ho : st.objects[i]? with
  | none =>
    simp only [aiStep, ho, Option.some.injEq] at h
    subst h
    exact hinv
  | some o =>
    cases hai : o.ai with
    | none =>
      simp only [aiStep, ho, hai, Option.some.injEq] at h
      subst h
      exact hinv
    | some a =>
      simp only [aiStep, ho, hai] at h
      exact takeTurn_lifeInv st i st' hinv h

/-- Folding AI steps preserves the lifecycle invariant. -/
theorem foldlM_aiStep_lifeInv (l : List Nat) (st st' : GState)
    (hinv : LifeInv st) (h : l.foldlM aiStep st = some st') : LifeInv st' := by
  induction l generalizing st with
  | nil =>
    simp only [List.foldlM_nil] at h
    cases h
    exact hinv
  | cons a l ih =>
    simp only [List.foldlM_cons] at h
    cases hstep : aiStep st a with
    | none =>
      rw [hstep] at h
      exact Option.noConfusion h
    | some stm =>
      rw [hstep] at h
      exact ih stm (aiStep_lifeInv st a stm hinv hstep) h

/-- The whole AI pass preserves the lifecycle invariant. -/
theorem aiPass_lifeInv (st st' : GState) (hinv : LifeInv st) (h : aiPass st = some st') :
    LifeInv st' :=
  foldlM_aiStep_lifeInv _ st st' hinv h

/-- player_move_or_attack preserves the lifecycle invariant. -/
theorem playerMoveOrAttack_lifeInv (st : GState) (dx dy : Int) (st' : GState)
    (hinv : LifeInv st) (h : playerMoveOrAttack st dx dy = some st') : LifeInv st' := by
  cases hp0 : st.objects[0]? with
  | none =>
    simp only [playerMoveOrAttack, hp0] at h
    exact Option.noConfusion h
  | some p =>
    simp only [playerMoveOrAttack, hp0] at h
    cases hfind : st.objects.findIdx?
        (fun o => o.fighter.isSome && o.x == p.x + dx && o.y == p.y + dy) with
    | some t =>
      rw [hfind] at h
      exact attackObj_lifeInv st 0 t st' hinv h
    | none =>
      rw [hfind] at h
      simp only [Option.some.injEq] at h
      subst h
      exact lifeInv_pres_of_frame (fun j => rfl) rfl (moveObj_lifeInv st 0 dx dy hinv)

/-- handle_keys preserves the lifecycle invariant. -/
theorem handleKeys_lifeInv (st : GState) (k : Key) (st' : GState) (act : PlayerAction)
    (hinv : LifeInv st) (h : handleKeys st k = some (st', act)) : LifeInv st' := by
  cases k with
  | escape =>
    simp only [handleKeys, Prod.mk.injEq, Option.some.injEq] at h
    rw [← h.1]
    exact hinv
  | up =>
    by_cases hgs : st.game_state = GameStatus.playing
    · simp only [handleKeys, hgs, if_true] at h
      cases hpm : playerMoveOrAttack st 0 (-1) with
      | none => rw [hpm] at h; exact Option.noConfusion h
      | some s1 =>
        rw [hpm] at h
        simp only [Option.map_some', Option.some.injEq, Prod.mk.injEq] at h
        rw [← h.1]
        exact playerMoveOrAttack_lifeInv st 0 (-1) s1 hinv hpm
    · simp only [handleKeys, hgs, if_false, Option.some.injEq, Prod.mk.injEq] at h
      rw [← h.1]
      exact hinv
  | down =>
    by_cases hgs : st.game_state = GameStatus.playing
    · simp only [handleKeys, hgs, if_true] at h
      cases hpm : playerMoveOrAttack st 0 1 with
      | none => rw [hpm] at h; exact Option.noConfusion h
      | some s1 =>
        rw [hpm] at h
        simp only [Option.map_some', Option.some.injEq, Prod.mk.injEq] at h
        rw [← h.1]
        exact playerMoveOrAttack_lifeInv st 0 1 s1 hinv hpm
    · simp only [handleKeys, hgs, if_false, Option.some.injEq, Prod.mk.injEq] at h
      rw [← h.1]
      exact hinv
  | left =>
    by_cases hgs : st.game_state = GameStatus.playing
    · simp only [handleKeys, hgs, if_true] at h
      cases hpm : playerMoveOrAttack st (-1) 0 with
      | none => rw [hpm] at h; exact Option.noConfusion h
      | some s1 =>
        rw [hpm] at h
        simp only [Option.map_some', Option.some.injEq, Prod.mk.injEq] at h
        rw [← h.1]
        exact playerMoveOrAttack_lifeInv st (-1) 0 s1 hinv hpm
    · simp only [handleKeys, hgs, if_false, Option.some.injEq, Prod.mk.injEq] at h
      rw [← h.1]
      exact hinv
  | right =>
    by_cases hgs : st.game_state = GameStatus.playing
    · simp only [handleKeys, hgs, if_true] at h
      cases hpm : playerMoveOrAttack st 1 0 with
      | none => rw [hpm] at h; exact Option.noConfusion h
      | some s1 =>
        rw [hpm] at h
        simp only [Option.map_some', Option.some.injEq, Prod.mk.injEq] at h
        rw [← h.1]
        exact playerMoveOrAttack_lifeInv st 1 0 s1 hinv hpm
    · simp only [handleKeys, hgs, if_false, Option.some.injEq, Prod.mk.injEq] at h
      rw [← h.1]
      exact hinv
  | other =>
    by_cases hgs : st.game_state = GameStatus.playing
    · simp only [handleKeys, hgs, if_true, Option.some.injEq, Prod.mk.injEq] at h
      rw [← h.1]
      exact hinv
    · simp only [handleKeys, hgs, if_false, Option.some.injEq, Prod.mk.injEq] at h
      rw [← h.1]
      exact hinv

/-- Claim C8: GameState transitions are one-directional.  The lifecycle
invariant — the player's death callback is player_death, the monsters' are
monster_death, and the state is 'dead' exactly when the player's fighter has
hp ≤ 0 — is preserved by every turn step (so Playing → Dead happens exactly
when the player's hp reaches ≤ 0 and there is no transition back), and a
step taken while Dead returns the state unchanged: no movement or attack
intent is processed and no AI turn runs. -/
theorem step_lifecycle (st : GState) (k : Key) (st' : GState) (act : PlayerAction)
    (hinv : LifeInv st) (h : step st k = some (st', act)) :
    LifeInv st' ∧ (st.game_state = GameStatus.dead → st' = st) := by
  by_cases hdead : st.game_state = GameStatus.dead
  · obtain ⟨act1, hhk⟩ := handleKeys_dead st k hdead
    have hngate : ¬ (st.game_state = GameStatus.playing ∧ act1 ≠ PlayerAction.didntTakeTurn) := by
      intro hcon
      rw [hdead] at hcon
      exact GameStatus.noConfusion hcon.1
    simp only [step, hhk] at h
    by_cases hexit : act1 = PlayerAction.exit
    · rw [if_pos hexit] at h
      simp only [Option.some.injEq, Prod.mk.injEq] at h
      rw [← h.1]
      exact ⟨hinv, fun _ => rfl⟩
    · rw [if_neg hexit, if_neg hngate] at h
      simp only [Option.some.injEq, Prod.mk.injEq] at h
      rw [← h.1]
      exact ⟨hinv, fun _ => rfl⟩
  · refine ⟨?_, fun hc => absurd hc hdead⟩
    cases hhk : handleKeys st k with
    | none =>
      simp only [step, hhk] at h
      exact Option.noConfusion h
    | some pair =>
      obtain ⟨st1, act1⟩ := pair
      have hinv1 : LifeInv st1 := handleKeys_lifeInv st k st1 act1 hinv hhk
      simp only [step, hhk] at h
      by_cases hexit : act1 = PlayerAction.exit
      · rw [if_pos hexit] at h
        simp only [Option.some.injEq, Prod.mk.injEq] at h
        rw [← h.1]
        exact hinv1
      · rw [if_neg hexit] at h
        by_cases hgate : st1.game_state = GameStatus.playing ∧ act1 ≠ PlayerAction.didntTakeTurn
        · rw [if_pos hgate] at h
          cases hai : aiPass st1 with
          | none =>
            rw [hai] at h
            exact Option.noConfusion h
          | some st2 =>
            rw [hai] at h
            simp only [Option.some.injEq, Prod.mk.injEq] at h
            rw [← h.1]
            exact aiPass_lifeInv st1 st2 hinv1 hai
        · rw [if_neg hgate] at h
          simp only [Option.some.injEq, Prod.mk.injEq] at h
          rw [← h.1]
          exact hinv1

/-- Witness for C8: the playing walled-in session satisfies the invariant
and a step on an unrecognized key keeps it. -/
theorem step_lifecycle_witness :
    LifeInv stC7 ∧ step stC7 Key.other = some (stC7, PlayerAction.didntTakeTurn) ∧
      LifeInv stC7 := by
  have hinv : LifeInv stC7 := by
    refine ⟨⟨⟨Fighter.make 30 2 5 (some DeathKind.player), rfl, rfl⟩, ?_⟩, ?_⟩
    · intro j fj hj0 hfj
      match j, hj0 with
      | Nat.succ n, _ =>
        simp [fighterAt, stC7, List.getElem?_cons_succ] at hfj
    · constructor
      · intro hc
        exact GameStatus.noConfusion hc
      · intro hex
        obtain ⟨pf, hpf, hple⟩ := hex
        have : pf = Fighter.make 30 2 5 (some DeathKind.player) := by
          simp [fighterAt, stC7, playerAt, Option.bind] at hpf
          exact hpf.symm
        rw [this] at hple
        exact absurd hple (by decide)
  exact ⟨hinv, rfl, (step_lifecycle stC7 Key.other stC7 PlayerAction.didntTakeTurn hinv rfl).1⟩

end PyRogue
